import Mathlib

/-!
Verification of the mesh connectivity and refinement engine of spfem
(`spfem/mesh.py`).

The embedding is a shallow translation of the source into Lean:

* a `d × N` numpy array of vertex coordinates becomes a `List` of
  coordinate tuples over `ℚ` (one entry per column);
* a `k × Ne` connectivity array becomes a `List` of `k`-tuples of `ℕ`
  (one entry per column);
* `np.unique` over canonicalized rows becomes sorted deduplication
  (`uniqueSorted`), which returns the distinct values in ascending
  lexicographic order together with the `ixb` inverse map realised as
  `firstIdx` into the deduplicated table;
* the mask/`hstack` vectorised column constructions of the refinement
  routines become `List.range`/`List.filter`/`List.map` constructions,
  block by block, in the order of the source;
* a Python `raise` becomes an `Except.error` branch.
-/

namespace Spfem

/-- `np.sort` applied to one 2-element column: put a pair of vertex
indices in ascending order (the canonicalization key of a facet/edge). -/
def pairSort (a b : ℕ) : ℕ × ℕ := if a ≤ b then (a, b) else (b, a)

/-- Lexicographic order on vertex pairs; this is the row order used by
`np.unique` on the structured view of the facet/edge array. -/
def lexLe (x y : ℕ × ℕ) : Prop := x.1 < y.1 ∨ (x.1 = y.1 ∧ x.2 ≤ y.2)

instance : DecidableRel lexLe := fun x y => by unfold lexLe; infer_instance

/-- `np.unique` on canonicalized rows: the distinct values, in ascending
order.  (`np.unique` returns the sorted unique values.) -/
def uniqueSorted {α : Type} [DecidableEq α] (r : α → α → Prop) [DecidableRel r]
    (l : List α) : List α :=
  List.insertionSort r l.dedup

/-- The index of the first occurrence of a value in a list: the
`return_inverse` map `ixb` of `np.unique` (on the deduplicated table the
first occurrence is the only occurrence). -/
def firstIdx {α : Type} [DecidableEq α] (x : α) : List α → ℕ
  | [] => 0
  | a :: l => if a = x then 0 else firstIdx x l + 1

instance {ε α : Type} [DecidableEq ε] [DecidableEq α] : DecidableEq (Except ε α) :=
  fun a b =>
  match a, b with
  | .ok x, .ok y => decidable_of_iff (x = y) (by simp)
  | .error x, .error y => decidable_of_iff (x = y) (by simp)
  | .ok _, .error _ => isFalse (by simp)
  | .error _, .ok _ => isFalse (by simp)

/-- A point of a two-dimensional mesh (one column of `self.p`). -/
abbrev Pt2 := ℚ × ℚ

/-- One column of the connectivity of a triangular mesh. -/
abbrev Tri := ℕ × ℕ × ℕ

namespace MeshTri

/-- `np.sort` applied to one 3-element connectivity column. -/
def sort3 (e : Tri) : Tri :=
  let u := pairSort e.1 e.2.1
  let v := pairSort u.2 e.2.2
  let w := pairSort u.1 v.1
  (w.1, w.2, v.2)

/-- `self.t = np.sort(self.t, axis=0)` — the connectivity as stored by
`MeshTri._build_mappings`. -/
def buildT (t : List Tri) : List Tri := t.map sort3

/-- The facet of one element in local slot `s`; slots are
`(0,1)`, `(1,2)`, `(0,2)` in this order, each column `np.sort`ed. -/
def slotFacet (s : ℕ) (e : Tri) : ℕ × ℕ :=
  match s with
  | 0 => pairSort e.1 e.2.1
  | 1 => pairSort e.2.1 e.2.2
  | _ => pairSort e.1 e.2.2

/-- `self.facets` before deduplication: the three slot blocks `np.hstack`ed
(slot-major: all slot-0 facets, then all slot-1, then all slot-2). -/
def facetsAll (t : List Tri) : List (ℕ × ℕ) :=
  t.map (slotFacet 0) ++ t.map (slotFacet 1) ++ t.map (slotFacet 2)

/-- `self.facets` after `np.unique`: the deduplicated facet table. -/
def facets (t : List Tri) : List (ℕ × ℕ) := uniqueSorted lexLe (facetsAll t)

/-- `ixb`, equivalently `e_tmp = np.hstack((t2f[0], t2f[1], t2f[2]))`:
for every (slot, element) occurrence, the index of its facet in the
deduplicated table. -/
def eTmp (t : List Tri) : List ℕ :=
  (facetsAll t).map (fun fa => firstIdx fa (facets t))

/-- `self.t2f[s, i]`: the facet table index of slot `s` of element `i`. -/
def t2f (t : List Tri) (s i : ℕ) : ℕ :=
  firstIdx (slotFacet s (t.getD i (0, 0, 0))) (facets t)

/-- `self.f2t[0, f] = t_tmp[ix_first]` where `ix_first` is the first
position of `f` in `e_tmp` and `t_tmp[k] = k % Ne`. -/
def f2t0 (t : List Tri) (f : ℕ) : ℕ := firstIdx f (eTmp t) % t.length

/-- The last position of `f` in `e_tmp` (the matlab `unique(...,'last')`
emulation: `e_tmp.shape[0] - ix_last - 1` over the reversed array). -/
def lastPos (t : List Tri) (f : ℕ) : ℕ :=
  (eTmp t).length - 1 - firstIdx f (eTmp t).reverse

/-- `self.f2t[1, f]` before the boundary sentinel pass. -/
def f2t1raw (t : List Tri) (f : ℕ) : ℕ := lastPos t f % t.length

/-- `self.f2t[1, f]` after setting repeated entries to `-1`. -/
def f2t1 (t : List Tri) (f : ℕ) : ℤ :=
  if f2t1raw t f = f2t0 t f then -1 else (f2t1raw t f : ℤ)

/-- `MeshTri.boundary_facets`: facet indices whose `f2t` second slot is `-1`. -/
def boundary_facets (t : List Tri) : List ℕ :=
  (List.range (facets t).length).filter (fun f => decide (f2t1 t f = -1))

/-- `MeshTri.boundary_nodes`: `np.unique` of the vertices of all boundary
facets. -/
def boundary_nodes (t : List Tri) : List ℕ :=
  uniqueSorted (· ≤ ·)
    ((boundary_facets t).map (fun f => ((facets t).getD f (0, 0)).1) ++
     (boundary_facets t).map (fun f => ((facets t).getD f (0, 0)).2))

/-- The number of distinct elements referencing facet index `f`
(an element references `f` when one of its three slots carries it). -/
def refCount (t : List Tri) (f : ℕ) : ℕ :=
  ((List.range t.length).filter
    (fun j => decide (t2f t 0 j = f ∨ t2f t 1 j = f ∨ t2f t 2 j = f))).length

/-- All vertex indices occurring in the connectivity (`np.unique(self.t)`
as a membership test). -/
def tVerts (t : List Tri) : List ℕ :=
  t.map (·.1) ++ t.map (·.2.1) ++ t.map (·.2.2)

/-- `Mesh._validate` for a triangular mesh.  The integer-dtype check, the
`dim ≤ 3` check and the 3-rows arity check hold structurally in this
embedding (connectivity entries are `ℕ`, points are pairs, elements are
triples), so the remaining checks are: no vertex outside every element
(`np.setdiff1d(np.arange(Np), np.unique(t))` empty) and no duplicate
coordinate pairs. -/
def validate (p : List Pt2) (t : List Tri) : Bool :=
  decide (∀ v ∈ List.range p.length, v ∈ tVerts t) && decide p.Nodup

/-- `MeshTri.__init__` with both `p` and `t` supplied and `validate=True`:
validation errors `raise`, otherwise the connectivity is stored sorted by
`_build_mappings` (the derived tables `facets`, `t2f`, `f2t` are pure
functions of the stored connectivity). -/
def init (p : List Pt2) (t : List Tri) : Except String (List Pt2 × List Tri) :=
  if validate p t then Except.ok (p, buildT t)
  else Except.error "Mesh.validate: invalid mesh."

/-- Midpoint of a facet: `0.5*(p[:, e[0]] + p[:, e[1]])`. -/
def midpoint2 (p : List Pt2) (f : ℕ × ℕ) : Pt2 :=
  (((p.getD f.1 (0, 0)).1 + (p.getD f.2 (0, 0)).1) / 2,
   ((p.getD f.1 (0, 0)).2 + (p.getD f.2 (0, 0)).2) / 2)

/-- The vertex array produced by `MeshTri._single_refine`:
`newp = np.hstack((p, midpoints of the unique facets))`. -/
def refineP (p : List Pt2) (t : List Tri) : List Pt2 :=
  p ++ (facets t).map (midpoint2 p)

/-- The connectivity produced by `MeshTri._single_refine`: four
`np.hstack`ed blocks `(t[0], t2f[0], t2f[2])`, `(t[1], t2f[0], t2f[1])`,
`(t[2], t2f[2], t2f[1])`, `(t2f[0], t2f[1], t2f[2])`, with `t2f`
shifted by `sz = p.shape[1]`.  Takes the stored (sorted) connectivity. -/
def refineT (p : List Pt2) (t : List Tri) : List Tri :=
  let sz := p.length
  (List.range t.length).map
    (fun i => ((t.getD i (0, 0, 0)).1, sz + t2f t 0 i, sz + t2f t 2 i)) ++
  (List.range t.length).map
    (fun i => ((t.getD i (0, 0, 0)).2.1, sz + t2f t 0 i, sz + t2f t 1 i)) ++
  (List.range t.length).map
    (fun i => ((t.getD i (0, 0, 0)).2.2, sz + t2f t 2 i, sz + t2f t 1 i)) ++
  (List.range t.length).map
    (fun i => (sz + t2f t 0 i, sz + t2f t 1 i, sz + t2f t 2 i))

/-- A full refinement step on the stored state: `_single_refine` replaces
`p` and `t` and then re-runs `_build_mappings` (which re-sorts the new
connectivity columns). -/
def refineFull (p : List Pt2) (t : List Tri) : List Pt2 × List Tri :=
  (refineP p t, buildT (refineT p t))

/-- `Mesh.translate` for a 2-d mesh: `self.p[i, :] += vec[i]`. -/
def translate (v : Pt2) (p : List Pt2) : List Pt2 :=
  p.map (fun q => (q.1 + v.1, q.2 + v.2))

/-- The default mesh of `MeshTri.__init__` (vertices). -/
def pDef : List Pt2 := [(0, 0), (1, 0), (0, 1), (1, 1)]

/-- The default mesh of `MeshTri.__init__` (connectivity columns). -/
def tDef : List Tri := [(0, 1, 2), (1, 3, 2)]

/-- The unit-square mesh of claim C8: every valid vertex index appears in
some element, but the third element also names vertex `7`, which does not
exist (`p` has 4 columns). -/
def tOOR : List Tri := [(0, 1, 2), (1, 3, 2), (2, 3, 7)]

/-- Vertices of the non-manifold mesh of claim C5. -/
def pNM : List Pt2 := [(0, 0), (1, 0), (0, 1), (1, 1), (2, 2)]

/-- Connectivity of the non-manifold mesh of claim C5: the edge `(0,1)` is
shared by all three triangles. -/
def tNM : List Tri := [(0, 1, 2), (0, 1, 3), (0, 1, 4)]

/-- Vertices of the degenerate mesh of claim C7. -/
def pDeg : List Pt2 := [(0, 0), (1, 0), (0, 1)]

/-- Connectivity of the degenerate mesh of claim C7: the first element
repeats vertex `1`, so it carries the facet `(1,2)` in two local slots;
the second element carries `(1,2)` once. -/
def tDeg : List Tri := [(1, 1, 2), (0, 1, 2)]

end MeshTri

/-- A point of a three-dimensional mesh (one column of `self.p`). -/
abbrev Pt3 := ℚ × ℚ × ℚ

/-- One column of the connectivity of a tetrahedral mesh. -/
abbrev Tet := ℕ × ℕ × ℕ × ℕ

namespace MeshTet

/-- The edge of one element in local slot `s`; `MeshTet._build_mappings`
builds the edges in the order `(0,1) (1,2) (0,2) (0,3) (1,3) (2,3)`, each
column `np.sort`ed.  (`MeshTet` does not sort its connectivity.) -/
def slotEdge (s : ℕ) (e : Tet) : ℕ × ℕ :=
  match s with
  | 0 => pairSort e.1 e.2.1
  | 1 => pairSort e.2.1 e.2.2.1
  | 2 => pairSort e.1 e.2.2.1
  | 3 => pairSort e.1 e.2.2.2
  | 4 => pairSort e.2.1 e.2.2.2
  | _ => pairSort e.2.2.1 e.2.2.2

/-- `self.edges` before deduplication: the six slot blocks `np.hstack`ed. -/
def edgesAll (t : List Tet) : List (ℕ × ℕ) :=
  t.map (slotEdge 0) ++ t.map (slotEdge 1) ++ t.map (slotEdge 2) ++
  t.map (slotEdge 3) ++ t.map (slotEdge 4) ++ t.map (slotEdge 5)

/-- `self.edges` after `np.unique`: the deduplicated edge table. -/
def edges (t : List Tet) : List (ℕ × ℕ) := uniqueSorted lexLe (edgesAll t)

/-- `self.t2e[s, i]`: the edge table index of slot `s` of element `i`. -/
def t2e (t : List Tet) (s i : ℕ) : ℕ :=
  firstIdx (slotEdge s (t.getD i (0, 0, 0, 0))) (edges t)

/-- The shifted map `t2e = self.t2e + sz` used throughout
`MeshTet._single_refine` (`sz = p.shape[1]`). -/
def t2es (p : List Pt3) (t : List Tet) (s i : ℕ) : ℕ := t2e t s i + p.length

/-- Midpoint of an edge: `0.5*(p[:, e[0]] + p[:, e[1]])`. -/
def midpoint3 (p : List Pt3) (f : ℕ × ℕ) : Pt3 :=
  (((p.getD f.1 (0, 0, 0)).1 + (p.getD f.2 (0, 0, 0)).1) / 2,
   ((p.getD f.1 (0, 0, 0)).2.1 + (p.getD f.2 (0, 0, 0)).2.1) / 2,
   ((p.getD f.1 (0, 0, 0)).2.2 + (p.getD f.2 (0, 0, 0)).2.2) / 2)

/-- The vertex array produced by `MeshTet._single_refine`:
`newp = np.hstack((p, midpoints of the unique edges))`. -/
def refineP (p : List Pt3) (t : List Tet) : List Pt3 :=
  p ++ (edges t).map (midpoint3 p)

/-- Reading one column of `newp`. -/
def nget (p : List Pt3) (k : ℕ) : Pt3 := p.getD k (0, 0, 0)

/-- The squared distance, in the first two coordinate components only, of
the midpoints of the edges in slots `sa` and `sb` of element `i`, read off
`newp` at the shifted `t2e` indices exactly as in the source
(`(newp[0,t2e[sa]]-newp[0,t2e[sb]])**2 + (newp[1,...]-newp[1,...])**2`). -/
def dOf (p : List Pt3) (t : List Tet) (sa sb i : ℕ) : ℚ :=
  ((nget (refineP p t) (t2es p t sa i)).1 -
   (nget (refineP p t) (t2es p t sb i)).1) ^ 2 +
  ((nget (refineP p t) (t2es p t sa i)).2.1 -
   (nget (refineP p t) (t2es p t sb i)).2.1) ^ 2

/-- `d1`: squared planar length of the diagonal `[2,4]` (midpoints III and V). -/
def d1 (p : List Pt3) (t : List Tet) (i : ℕ) : ℚ := dOf p t 2 4 i

/-- `d2`: squared planar length of the diagonal `[1,3]` (midpoints II and IV). -/
def d2 (p : List Pt3) (t : List Tet) (i : ℕ) : ℚ := dOf p t 1 3 i

/-- `d3`: squared planar length of the diagonal `[0,5]` (midpoints I and VI). -/
def d3 (p : List Pt3) (t : List Tet) (i : ℕ) : ℚ := dOf p t 0 5 i

/-- `c1 = I1*I2` where `I1 = d1 < d2`, `I2 = d1 < d3`. -/
def c1 (p : List Pt3) (t : List Tet) (i : ℕ) : Prop :=
  d1 p t i < d2 p t i ∧ d1 p t i < d3 p t i

/-- `c2 = (-I1)*I3` where `I3 = d2 < d3` (boolean negation `-I1` in the
numpy of the time is logical not). -/
def c2 (p : List Pt3) (t : List Tet) (i : ℕ) : Prop :=
  ¬(d1 p t i < d2 p t i) ∧ d2 p t i < d3 p t i

/-- `c3 = (-I2)*(-I3)`. -/
def c3 (p : List Pt3) (t : List Tet) (i : ℕ) : Prop :=
  ¬(d1 p t i < d3 p t i) ∧ ¬(d2 p t i < d3 p t i)

instance (p : List Pt3) (t : List Tet) (i : ℕ) : Decidable (c1 p t i) := by
  unfold c1; infer_instance

instance (p : List Pt3) (t : List Tet) (i : ℕ) : Decidable (c2 p t i) := by
  unfold c2; infer_instance

instance (p : List Pt3) (t : List Tet) (i : ℕ) : Decidable (c3 p t i) := by
  unfold c3; infer_instance

/-- The connectivity produced by `MeshTet._single_refine`: the four corner
blocks over all elements, then the four blocks of each diagonal case over
the mask-selected elements, `np.hstack`ed in the order of the source. -/
def refineT (p : List Pt3) (t : List Tet) : List Tet :=
  (List.range t.length).map
    (fun i => ((t.getD i (0, 0, 0, 0)).1, t2es p t 0 i, t2es p t 2 i, t2es p t 3 i)) ++
  (List.range t.length).map
    (fun i => ((t.getD i (0, 0, 0, 0)).2.1, t2es p t 0 i, t2es p t 1 i, t2es p t 4 i)) ++
  (List.range t.length).map
    (fun i => ((t.getD i (0, 0, 0, 0)).2.2.1, t2es p t 1 i, t2es p t 2 i, t2es p t 5 i)) ++
  (List.range t.length).map
    (fun i => ((t.getD i (0, 0, 0, 0)).2.2.2, t2es p t 3 i, t2es p t 4 i, t2es p t 5 i)) ++
  ((List.range t.length).filter (fun i => decide (c1 p t i))).map
    (fun i => (t2es p t 2 i, t2es p t 4 i, t2es p t 0 i, t2es p t 1 i)) ++
  ((List.range t.length).filter (fun i => decide (c1 p t i))).map
    (fun i => (t2es p t 2 i, t2es p t 4 i, t2es p t 0 i, t2es p t 3 i)) ++
  ((List.range t.length).filter (fun i => decide (c1 p t i))).map
    (fun i => (t2es p t 2 i, t2es p t 4 i, t2es p t 1 i, t2es p t 5 i)) ++
  ((List.range t.length).filter (fun i => decide (c1 p t i))).map
    (fun i => (t2es p t 2 i, t2es p t 4 i, t2es p t 3 i, t2es p t 5 i)) ++
  ((List.range t.length).filter (fun i => decide (c2 p t i))).map
    (fun i => (t2es p t 1 i, t2es p t 3 i, t2es p t 0 i, t2es p t 4 i)) ++
  ((List.range t.length).filter (fun i => decide (c2 p t i))).map
    (fun i => (t2es p t 1 i, t2es p t 3 i, t2es p t 4 i, t2es p t 5 i)) ++
  ((List.range t.length).filter (fun i => decide (c2 p t i))).map
    (fun i => (t2es p t 1 i, t2es p t 3 i, t2es p t 5 i, t2es p t 2 i)) ++
  ((List.range t.length).filter (fun i => decide (c2 p t i))).map
    (fun i => (t2es p t 1 i, t2es p t 3 i, t2es p t 2 i, t2es p t 0 i)) ++
  ((List.range t.length).filter (fun i => decide (c3 p t i))).map
    (fun i => (t2es p t 0 i, t2es p t 5 i, t2es p t 1 i, t2es p t 4 i)) ++
  ((List.range t.length).filter (fun i => decide (c3 p t i))).map
    (fun i => (t2es p t 0 i, t2es p t 5 i, t2es p t 4 i, t2es p t 3 i)) ++
  ((List.range t.length).filter (fun i => decide (c3 p t i))).map
    (fun i => (t2es p t 0 i, t2es p t 5 i, t2es p t 3 i, t2es p t 2 i)) ++
  ((List.range t.length).filter (fun i => decide (c3 p t i))).map
    (fun i => (t2es p t 0 i, t2es p t 5 i, t2es p t 2 i, t2es p t 1 i))

/-- A full refinement step of `MeshTet`: `_single_refine` replaces `p` and
`t` (tetrahedral `_build_mappings` leaves the connectivity unsorted, so
the stored connectivity is `refineT` itself). -/
def refineFull (p : List Pt3) (t : List Tet) : List Pt3 × List Tet :=
  (refineP p t, refineT p t)

/-- `Mesh.translate` for a 3-d mesh. -/
def translate (v : Pt3) (p : List Pt3) : List Pt3 :=
  p.map (fun q => (q.1 + v.1, q.2.1 + v.2.1, q.2.2 + v.2.2))

/-- Membership of a vertex index in a tetrahedron. -/
def memTet (x : ℕ) (e : Tet) : Prop :=
  x = e.1 ∨ x = e.2.1 ∨ x = e.2.2.1 ∨ x = e.2.2.2

instance (x : ℕ) (e : Tet) : Decidable (memTet x e) := by
  unfold memTet; infer_instance

/-- Modelled from the spec: the diagonal-selection rule exactly as claim
C1 states it.  The candidates, in the listed order, are midpoint pairs
(II,IV), (I,VI), (III,V), i.e. shifted slots (1,3), (0,5), (2,4), with
planar squared lengths `d2`, `d3`, `d1`; the shortest is selected, and
among equal-length candidates the first in the listed order wins. -/
def specDiag (p : List Pt3) (t : List Tet) (i : ℕ) : ℕ × ℕ :=
  if d2 p t i ≤ d3 p t i ∧ d2 p t i ≤ d1 p t i then (t2es p t 1 i, t2es p t 3 i)
  else if d3 p t i ≤ d2 p t i ∧ d3 p t i ≤ d1 p t i then (t2es p t 0 i, t2es p t 5 i)
  else (t2es p t 2 i, t2es p t 4 i)

/-- The diagonal the source actually fans the central children around,
read off the masks `c1`, `c2`, `c3`: `[2,4]`, else `[1,3]`, else `[0,5]`. -/
def codeDiag (p : List Pt3) (t : List Tet) (i : ℕ) : ℕ × ℕ :=
  if c1 p t i then (t2es p t 2 i, t2es p t 4 i)
  else if c2 p t i then (t2es p t 1 i, t2es p t 3 i)
  else (t2es p t 0 i, t2es p t 5 i)

/-- The planar squared length of the diagonal selected by the source. -/
def chosenD (p : List Pt3) (t : List Tet) (i : ℕ) : ℚ :=
  if c1 p t i then d1 p t i else if c2 p t i then d2 p t i else d3 p t i

/-- The four central children the source generates for element `i`,
one per case block. -/
def centralOf (p : List Pt3) (t : List Tet) (i : ℕ) : List Tet :=
  if c1 p t i then
    [(t2es p t 2 i, t2es p t 4 i, t2es p t 0 i, t2es p t 1 i),
     (t2es p t 2 i, t2es p t 4 i, t2es p t 0 i, t2es p t 3 i),
     (t2es p t 2 i, t2es p t 4 i, t2es p t 1 i, t2es p t 5 i),
     (t2es p t 2 i, t2es p t 4 i, t2es p t 3 i, t2es p t 5 i)]
  else if c2 p t i then
    [(t2es p t 1 i, t2es p t 3 i, t2es p t 0 i, t2es p t 4 i),
     (t2es p t 1 i, t2es p t 3 i, t2es p t 4 i, t2es p t 5 i),
     (t2es p t 1 i, t2es p t 3 i, t2es p t 5 i, t2es p t 2 i),
     (t2es p t 1 i, t2es p t 3 i, t2es p t 2 i, t2es p t 0 i)]
  else
    [(t2es p t 0 i, t2es p t 5 i, t2es p t 1 i, t2es p t 4 i),
     (t2es p t 0 i, t2es p t 5 i, t2es p t 4 i, t2es p t 3 i),
     (t2es p t 0 i, t2es p t 5 i, t2es p t 3 i, t2es p t 2 i),
     (t2es p t 0 i, t2es p t 5 i, t2es p t 2 i, t2es p t 1 i)]

/-- The property claim C1 asserts, for a one-element mesh (there the
central children are exactly the columns of the refined connectivity
after the four corner children): every central child contains both
endpoints of the diagonal selected by the rule the claim states. -/
def claimC1 (p : List Pt3) (t : List Tet) : Prop :=
  ∀ ch ∈ (refineT p t).drop (4 * t.length),
    memTet (specDiag p t 0).1 ch ∧ memTet (specDiag p t 0).2 ch

/-- The reference tetrahedron, the concrete input of claim C1. -/
def pRef : List Pt3 := [(0, 0, 0), (1, 0, 0), (0, 1, 0), (0, 0, 1)]

/-- Its one-element connectivity. -/
def tRef : List Tet := [(0, 1, 2, 3)]

end MeshTet

/-! ### Generic helper lemmas -/

theorem mem_uniqueSorted {α : Type} [DecidableEq α] (r : α → α → Prop)
    [DecidableRel r] {l : List α} {x : α} : x ∈ uniqueSorted r l ↔ x ∈ l := by
  unfold uniqueSorted
  rw [(List.perm_insertionSort r l.dedup).mem_iff, List.mem_dedup]

theorem nodup_uniqueSorted {α : Type} [DecidableEq α] (r : α → α → Prop)
    [DecidableRel r] (l : List α) : (uniqueSorted r l).Nodup :=
  ((List.perm_insertionSort r l.dedup).nodup_iff).mpr l.nodup_dedup

theorem mem_of_getD {α : Type} {l : List α} {k : ℕ} {d : α}
    (hk : k < l.length) : l.getD k d ∈ l := by
  rw [List.getD_eq_getElem _ _ hk]
  exact List.getElem_mem _

theorem firstIdx_lt {α : Type} [DecidableEq α] {x : α} {l : List α}
    (h : x ∈ l) : firstIdx x l < l.length := by
  induction l with
  | nil => simp at h
  | cons a l ih =>
    simp only [firstIdx]
    split_ifs with hax
    · simp
    · have hx : x ∈ l := by
        rcases List.mem_cons.mp h with h' | h'
        · exact absurd h'.symm hax
        · exact h'
      simpa using ih hx

theorem getD_firstIdx {α : Type} [DecidableEq α] {x : α} {l : List α}
    (h : x ∈ l) (d : α) : l.getD (firstIdx x l) d = x := by
  induction l with
  | nil => simp at h
  | cons a l ih =>
    simp only [firstIdx]
    split_ifs with hax
    · simpa using hax
    · have hx : x ∈ l := by
        rcases List.mem_cons.mp h with h' | h'
        · exact absurd h'.symm hax
        · exact h'
      simpa using ih hx

theorem firstIdx_le {α : Type} [DecidableEq α] {x : α} {l : List α} {k : ℕ}
    {d : α} (hk : k < l.length) (hv : l.getD k d = x) : firstIdx x l ≤ k := by
  induction l generalizing k with
  | nil => simp at hk
  | cons a l ih =>
    cases k with
    | zero =>
      simp only [List.getD_cons_zero] at hv
      simp [firstIdx, hv]
    | succ k =>
      simp only [List.getD_cons_succ] at hv
      simp only [firstIdx]
      split_ifs
      · omega
      · exact Nat.succ_le_succ (ih (Nat.lt_of_succ_lt_succ hk) hv)

theorem firstIdx_getD_nodup {α : Type} [DecidableEq α] {l : List α}
    (h : l.Nodup) {i : ℕ} (hi : i < l.length) (d : α) :
    firstIdx (l.getD i d) l = i := by
  induction l generalizing i with
  | nil => simp at hi
  | cons a l ih =>
    rw [List.nodup_cons] at h
    cases i with
    | zero => simp [firstIdx]
    | succ i =>
      have hi' : i < l.length := Nat.lt_of_succ_lt_succ hi
      simp only [List.getD_cons_succ, firstIdx]
      split_ifs with hax
      · exact absurd (hax ▸ mem_of_getD hi') h.1
      · rw [ih h.2 hi']

theorem firstIdx_inj {α : Type} [DecidableEq α] {x y : α} {l : List α}
    (hx : x ∈ l) (hy : y ∈ l) (h : firstIdx x l = firstIdx y l) : x = y := by
  have h1 := getD_firstIdx hx x
  rw [h, getD_firstIdx hy x] at h1
  exact h1.symm

theorem getD_append_left {β : Type} {A B : List β} {k : ℕ} (d : β)
    (h : k < A.length) : (A ++ B).getD k d = A.getD k d := by
  rw [List.getD_eq_getElem _ _ (by simp; omega),
    List.getD_eq_getElem _ _ h]
  exact List.getElem_append_left h

theorem getD_append_offset {β : Type} (A B : List β) (k : ℕ) (d : β) :
    (A ++ B).getD (A.length + k) d = B.getD k d := by
  by_cases hk : k < B.length
  · rw [List.getD_eq_getElem _ _ (by simp; omega),
      List.getD_eq_getElem _ _ hk]
    rw [List.getElem_append_right (by omega)]
    congr 1
    omega
  · rw [List.getD_eq_getD_get?, List.getD_eq_getD_get?]
    rw [List.get?_eq_none.mpr (by simp; omega), List.get?_eq_none.mpr (by omega)]

theorem getD_range_map {β : Type} (g : ℕ → β) {n i : ℕ} (h : i < n) (d : β) :
    ((List.range n).map g).getD i d = g i := by
  rw [List.getD_eq_getElem _ _ (by simpa using h)]
  simp

theorem two_le_length_of_two_mem {l : List ℕ} {a b : ℕ} (hab : a ≠ b)
    (ha : a ∈ l) (hb : b ∈ l) : 2 ≤ l.length := by
  have hb' : b ∈ l.erase a := (List.mem_erase_of_ne (fun h => hab h.symm)).mpr hb
  have h1 : 0 < (l.erase a).length := List.length_pos_of_mem hb'
  have h2 := List.length_erase a l
  rw [if_pos ha] at h2
  omega

theorem length_filter_eq_one {l : List ℕ} {p : ℕ → Bool} {a : ℕ}
    (hnd : l.Nodup) (ha : a ∈ l) (hpa : p a = true)
    (hq : ∀ x ∈ l, p x = true → x = a) : (l.filter p).length = 1 := by
  have hmem : a ∈ l.filter p := List.mem_filter.mpr ⟨ha, hpa⟩
  have hndf : (l.filter p).Nodup := hnd.filter p
  rcases hFl : l.filter p with _ | ⟨x, _ | ⟨y, rest⟩⟩
  · rw [hFl] at hmem; simp at hmem
  · rfl
  · exfalso
    have hx : x ∈ l.filter p := by rw [hFl]; simp
    have hy : y ∈ l.filter p := by rw [hFl]; simp
    have hxa : x = a := hq x (List.mem_filter.mp hx).1 (List.mem_filter.mp hx).2
    have hya : y = a := hq y (List.mem_filter.mp hy).1 (List.mem_filter.mp hy).2
    rw [hFl] at hndf
    rw [List.nodup_cons] at hndf
    exact hndf.1 (by rw [hxa, hya]; simp)

theorem length_filter_partition {l : List ℕ} {p q r : ℕ → Bool}
    (h : ∀ i ∈ l, (p i = true ∧ q i = false ∧ r i = false) ∨
      (p i = false ∧ q i = true ∧ r i = false) ∨
      (p i = false ∧ q i = false ∧ r i = true)) :
    (l.filter p).length + (l.filter q).length + (l.filter r).length =
      l.length := by
  induction l with
  | nil => simp
  | cons a l ih =>
    have ha := h a (List.mem_cons_self a l)
    have ih' := ih (fun i hi => h i (List.mem_cons_of_mem a hi))
    rcases ha with ⟨h1, h2, h3⟩ | ⟨h1, h2, h3⟩ | ⟨h1, h2, h3⟩ <;>
      simp [List.filter_cons, h1, h2, h3] <;> omega

/-! ### Claim C4: boundary classification on the default triangular mesh -/

/-- Claim C4: for the default triangular mesh (vertices
`(0,0),(1,0),(0,1),(1,1)`, elements `(0,1,2)` and `(1,3,2)`),
construction succeeds, `boundary_facets()` returns exactly the four outer
edges (facet indices `0,1,3,4` of the deduplicated table, i.e. the vertex
pairs `(0,1),(0,2),(1,3),(2,3)`), `boundary_nodes()` returns all four
vertices, and the diagonal `(1,2)` (facet index `2`) is not a boundary
facet. -/
theorem C4_default_boundary :
    MeshTri.init MeshTri.pDef MeshTri.tDef =
      Except.ok (MeshTri.pDef, MeshTri.buildT MeshTri.tDef) ∧
    MeshTri.boundary_facets (MeshTri.buildT MeshTri.tDef) = [0, 1, 3, 4] ∧
    (MeshTri.boundary_facets (MeshTri.buildT MeshTri.tDef)).map
        (fun f => (MeshTri.facets (MeshTri.buildT MeshTri.tDef)).getD f (0, 0)) =
      [(0, 1), (0, 2), (1, 3), (2, 3)] ∧
    MeshTri.boundary_nodes (MeshTri.buildT MeshTri.tDef) = [0, 1, 2, 3] ∧
    firstIdx (1, 2) (MeshTri.facets (MeshTri.buildT MeshTri.tDef)) = 2 ∧
    2 ∉ MeshTri.boundary_facets (MeshTri.buildT MeshTri.tDef) := by
  decide

/-! ### Claim C5: no non-manifold error is raised -/

/-- Claim C5, counterexample: in the mesh `pNM`/`tNM` the facet `(0,1)`
(index `0` of the deduplicated table) is referenced by all three
elements, yet construction — validation followed by
`_build_mappings` — succeeds and returns the adjacency data; no
`NonManifoldMesh` (nor any other) error is raised. -/
theorem C5_counterexample :
    MeshTri.validate MeshTri.pNM MeshTri.tNM = true ∧
    MeshTri.init MeshTri.pNM MeshTri.tNM = Except.ok (MeshTri.pNM, MeshTri.tNM) ∧
    MeshTri.refCount MeshTri.tNM 0 = 3 ∧
    (MeshTri.facets MeshTri.tNM).getD 0 (0, 0) = (0, 1) ∧
    ¬ ∃ msg, MeshTri.init MeshTri.pNM MeshTri.tNM = Except.error msg := by
  refine ⟨by decide, by decide, by decide, by decide, ?_⟩
  rintro ⟨msg, hmsg⟩
  rw [show MeshTri.init MeshTri.pNM MeshTri.tNM =
    Except.ok (MeshTri.pNM, MeshTri.tNM) from by decide] at hmsg
  exact absurd hmsg (by simp)

/-! ### Claim C6: which element occupies slot 0 -/

/-- Claim C6, counterexample: in the default mesh, facet `2` (the
diagonal `(1,2)`) is referenced by both elements — element `0` carries it
in local slot 1 — yet slot 0 of `f2t` holds element `1`, not the first
referencing element by element index. -/
theorem C6_counterexample :
    MeshTri.t2f (MeshTri.buildT MeshTri.tDef) 1 0 = 2 ∧
    MeshTri.refCount (MeshTri.buildT MeshTri.tDef) 2 = 2 ∧
    MeshTri.f2t0 (MeshTri.buildT MeshTri.tDef) 2 = 1 := by
  decide

/-! ### Claim C7: slot 1 sentinel vs. boundary -/

/-- Claim C7, counterexample: the degenerate mesh `pDeg`/`tDeg` passes
validation and no facet is referenced by more than two elements, but the
facet `(1,2)` (index `3`) is referenced by both elements while its `f2t`
slot 1 is the boundary sentinel `-1` (element `0` carries the facet in
two local slots, so the first and last occurrences belong to the same
element). -/
theorem C7_counterexample :
    MeshTri.validate MeshTri.pDeg MeshTri.tDeg = true ∧
    MeshTri.init MeshTri.pDeg MeshTri.tDeg = Except.ok (MeshTri.pDeg, MeshTri.tDeg) ∧
    (∀ f < (MeshTri.facets MeshTri.tDeg).length, MeshTri.refCount MeshTri.tDeg f ≤ 2) ∧
    (MeshTri.facets MeshTri.tDeg).getD 3 (0, 0) = (1, 2) ∧
    MeshTri.refCount MeshTri.tDeg 3 = 2 ∧
    MeshTri.f2t1 MeshTri.tDeg 3 = -1 := by
  refine ⟨by decide, by decide, ?_, by decide, by decide, by decide⟩
  decide

/-! ### Claim C8: no out-of-range connectivity check -/

/-- Claim C8, counterexample: the connectivity `tOOR` names vertex `7`
while only vertices `0..3` exist, every valid vertex index appears in
some element, and validation (and full construction) succeeds instead of
failing with an `InvalidMesh` error. -/
theorem C8_counterexample :
    MeshTri.validate MeshTri.pDef MeshTri.tOOR = true ∧
    MeshTri.init MeshTri.pDef MeshTri.tOOR =
      Except.ok (MeshTri.pDef, MeshTri.buildT MeshTri.tOOR) ∧
    (2, 3, 7) ∈ MeshTri.tOOR ∧
    MeshTri.pDef.length = 4 ∧
    (∀ v < MeshTri.pDef.length, v ∈ MeshTri.tVerts MeshTri.tOOR) ∧
    MeshTri.pDef.length ≤ 7 := by
  refine ⟨by decide, by decide, by decide, by decide, ?_, by decide⟩
  decide

/-! ### Claim C10: stored triangular connectivity is column-sorted -/

theorem sort3_sorted (e : Tri) :
    (MeshTri.sort3 e).1 ≤ (MeshTri.sort3 e).2.1 ∧
    (MeshTri.sort3 e).2.1 ≤ (MeshTri.sort3 e).2.2 := by
  obtain ⟨a, b, c⟩ := e
  simp only [MeshTri.sort3, pairSort]
  split_ifs <;> simp_all <;> omega

theorem sort3_max (e : Tri) :
    e.1 ≤ (MeshTri.sort3 e).2.2 ∧ e.2.1 ≤ (MeshTri.sort3 e).2.2 ∧
    e.2.2 ≤ (MeshTri.sort3 e).2.2 := by
  obtain ⟨a, b, c⟩ := e
  simp only [MeshTri.sort3, pairSort]
  split_ifs <;> simp_all <;> omega

/-- Claim C10: the builder replaces the connectivity by a column-wise
sorted copy, so after construction — and after a refinement step, which
re-runs the builder — every stored element has ascending vertex indices;
a caller-supplied ordering such as `(2,1,0)` is not preserved. -/
theorem C10_sorted_connectivity (p : List Pt2) (t : List Tri) :
    MeshTri.buildT t = t.map MeshTri.sort3 ∧
    (∀ e ∈ MeshTri.buildT t, e.1 ≤ e.2.1 ∧ e.2.1 ≤ e.2.2) ∧
    (∀ e ∈ (MeshTri.refineFull p t).2, e.1 ≤ e.2.1 ∧ e.2.1 ≤ e.2.2) ∧
    MeshTri.buildT [(2, 1, 0)] = [(0, 1, 2)] ∧
    MeshTri.buildT [(2, 1, 0)] ≠ [(2, 1, 0)] := by
  refine ⟨rfl, ?_, ?_, by decide, by decide⟩
  · intro e he
    obtain ⟨x, _, rfl⟩ := List.mem_map.mp he
    exact sort3_sorted x
  · intro e he
    simp only [MeshTri.refineFull, MeshTri.buildT] at he
    obtain ⟨x, _, rfl⟩ := List.mem_map.mp he
    exact sort3_sorted x

/-- Claim C10, witness. -/
theorem C10_witness :
    MeshTri.buildT [(2, 1, 0)] = [(0, 1, 2)] ∧
    MeshTri.buildT [(2, 1, 0)] ≠ [(2, 1, 0)] :=
  (C10_sorted_connectivity [] [(2, 1, 0)]).2.2.2

/-! ### Claim C2: one triangular refinement step -/

/-- Claim C2: a refinement step yields `V + E` vertices (the midpoint of
facet `f` having index `V + f` and being the facet's coordinate
midpoint) and `4·Ne` elements; the element `i` with stored corners
`(v0, v1, v2)` produces the children `(v0, m01, m02)`, `(v1, m01, m12)`,
`(v2, m02, m12)` and `(m01, m12, m02)` at positions `i`, `Ne + i`,
`2·Ne + i`, `3·Ne + i` of the emitted connectivity, where
`m01 = V + t2f 0 i`, `m12 = V + t2f 1 i`, `m02 = V + t2f 2 i` are the
midpoint indices of the slot edges `(v0,v1)`, `(v1,v2)`, `(v0,v2)`; the
stored connectivity of the new mesh is the column-sorted copy of the
emitted one. -/
theorem C2_triangle_refine (p : List Pt2) (t : List Tri) (i : ℕ)
    (h : i < t.length) :
    (MeshTri.refineFull p t).1.length = p.length + (MeshTri.facets t).length ∧
    (MeshTri.refineFull p t).2.length = 4 * t.length ∧
    (∀ f, f < (MeshTri.facets t).length →
      (MeshTri.refineFull p t).1.getD (p.length + f) (0, 0) =
        MeshTri.midpoint2 p ((MeshTri.facets t).getD f (0, 0))) ∧
    (MeshTri.refineT p t).getD i (0, 0, 0) =
      ((t.getD i (0, 0, 0)).1, p.length + MeshTri.t2f t 0 i,
        p.length + MeshTri.t2f t 2 i) ∧
    (MeshTri.refineT p t).getD (t.length + i) (0, 0, 0) =
      ((t.getD i (0, 0, 0)).2.1, p.length + MeshTri.t2f t 0 i,
        p.length + MeshTri.t2f t 1 i) ∧
    (MeshTri.refineT p t).getD (2 * t.length + i) (0, 0, 0) =
      ((t.getD i (0, 0, 0)).2.2, p.length + MeshTri.t2f t 2 i,
        p.length + MeshTri.t2f t 1 i) ∧
    (MeshTri.refineT p t).getD (3 * t.length + i) (0, 0, 0) =
      (p.length + MeshTri.t2f t 0 i, p.length + MeshTri.t2f t 1 i,
        p.length + MeshTri.t2f t 2 i) ∧
    (MeshTri.refineFull p t).2 = (MeshTri.refineT p t).map MeshTri.sort3 := by
  refine ⟨?_, ?_, ?_, ?_, ?_, ?_, ?_, rfl⟩
  · simp [MeshTri.refineFull, MeshTri.refineP]
  · simp only [MeshTri.refineFull, MeshTri.buildT, MeshTri.refineT]
    simp [List.length_append]
    omega
  · intro f hf
    simp only [MeshTri.refineFull, MeshTri.refineP]
    rw [getD_append_offset]
    rw [List.getD_eq_getElem _ _ (by simpa using hf), List.getElem_map,
      ← List.getD_eq_getElem]
  · simp only [MeshTri.refineT]
    rw [getD_append_left _ (by simp; omega), getD_append_left _ (by simp; omega),
      getD_append_left _ (by simpa using h), getD_range_map _ h]
  · simp only [MeshTri.refineT]
    rw [getD_append_left _ (by simp; omega), getD_append_left _ (by simp; omega),
      show t.length + i =
        ((List.range t.length).map (fun i =>
          ((t.getD i (0, 0, 0)).1, p.length + MeshTri.t2f t 0 i,
            p.length + MeshTri.t2f t 2 i))).length + i by simp,
      getD_append_offset, getD_range_map _ h]
  · simp only [MeshTri.refineT]
    rw [getD_append_left _ (by simp; omega),
      show 2 * t.length + i =
        ((List.range t.length).map (fun i =>
          ((t.getD i (0, 0, 0)).1, p.length + MeshTri.t2f t 0 i,
            p.length + MeshTri.t2f t 2 i)) ++
         (List.range t.length).map (fun i =>
          ((t.getD i (0, 0, 0)).2.1, p.length + MeshTri.t2f t 0 i,
            p.length + MeshTri.t2f t 1 i))).length + i by simp; omega,
      getD_append_offset, getD_range_map _ h]
  · simp only [MeshTri.refineT]
    rw [show 3 * t.length + i =
        ((List.range t.length).map (fun i =>
          ((t.getD i (0, 0, 0)).1, p.length + MeshTri.t2f t 0 i,
            p.length + MeshTri.t2f t 2 i)) ++
         (List.range t.length).map (fun i =>
          ((t.getD i (0, 0, 0)).2.1, p.length + MeshTri.t2f t 0 i,
            p.length + MeshTri.t2f t 1 i)) ++
         (List.range t.length).map (fun i =>
          ((t.getD i (0, 0, 0)).2.2, p.length + MeshTri.t2f t 2 i,
            p.length + MeshTri.t2f t 1 i))).length + i by simp; omega,
      getD_append_offset, getD_range_map _ h]

/-- Claim C2, witness: the default mesh, element 0. -/
theorem C2_witness :
    (MeshTri.refineFull MeshTri.pDef (MeshTri.buildT MeshTri.tDef)).1.length =
      4 + 5 ∧
    (MeshTri.refineFull MeshTri.pDef (MeshTri.buildT MeshTri.tDef)).2.length =
      4 * 2 := by
  have h := C2_triangle_refine MeshTri.pDef (MeshTri.buildT MeshTri.tDef) 0
    (by decide)
  exact ⟨by rw [h.1]; decide, by rw [h.2.1]; decide⟩

/-! ### The facet-to-element map: occurrence analysis of `e_tmp` -/

theorem getD_map_of_lt {β γ : Type} (fn : β → γ) (L : List β) {k : ℕ}
    (hk : k < L.length) (d : β) (d' : γ) :
    (L.map fn).getD k d' = fn (L.getD k d) := by
  rw [List.getD_eq_getElem _ _ (by simpa using hk), List.getElem_map,
    ← List.getD_eq_getElem _ d hk]

theorem facetsAll_length (t : List Tri) :
    (MeshTri.facetsAll t).length = 3 * t.length := by
  simp [MeshTri.facetsAll]; omega

theorem eTmp_length (t : List Tri) :
    (MeshTri.eTmp t).length = 3 * t.length := by
  simp [MeshTri.eTmp, facetsAll_length]

theorem facetsAll_getD (t : List Tri) {s j : ℕ} (hs : s < 3)
    (hj : j < t.length) :
    (MeshTri.facetsAll t).getD (s * t.length + j) (0, 0) =
      MeshTri.slotFacet s (t.getD j (0, 0, 0)) := by
  interval_cases s
  · simp only [MeshTri.facetsAll]
    rw [show 0 * t.length + j = j by omega,
      getD_append_left _ (by simp; omega), getD_append_left _ (by simpa using hj),
      getD_map_of_lt _ _ hj (0, 0, 0)]
  · simp only [MeshTri.facetsAll]
    rw [getD_append_left _ (by simp; omega),
      show 1 * t.length + j = (t.map (MeshTri.slotFacet 0)).length + j by
        simp only [List.length_map]; omega,
      getD_append_offset, getD_map_of_lt _ _ hj (0, 0, 0)]
  · simp only [MeshTri.facetsAll]
    rw [show 2 * t.length + j =
        (t.map (MeshTri.slotFacet 0) ++ t.map (MeshTri.slotFacet 1)).length + j
        by simp only [List.length_append, List.length_map]; omega,
      getD_append_offset, getD_map_of_lt _ _ hj (0, 0, 0)]

theorem slot_pos_lt {n s j : ℕ} (hs : s < 3) (hj : j < n) :
    s * n + j < 3 * n := by
  have h1 : s * n + j < (s + 1) * n := by rw [Nat.succ_mul]; omega
  have h2 : (s + 1) * n ≤ 3 * n := Nat.mul_le_mul_right _ (by omega)
  omega

theorem eTmp_getD (t : List Tri) {s j : ℕ} (hs : s < 3) (hj : j < t.length) :
    (MeshTri.eTmp t).getD (s * t.length + j) 0 = MeshTri.t2f t s j := by
  have hk : s * t.length + j < (MeshTri.facetsAll t).length := by
    rw [facetsAll_length]
    exact slot_pos_lt hs hj
  rw [MeshTri.eTmp, getD_map_of_lt _ _ hk (0, 0), facetsAll_getD t hs hj]
  rfl

theorem pos_decompose {n k : ℕ} (h : k < 3 * n) :
    k / n < 3 ∧ k % n < n ∧ (k / n) * n + k % n = k := by
  have hn : 0 < n := by omega
  refine ⟨(Nat.div_lt_iff_lt_mul hn).mpr (by omega), Nat.mod_lt _ hn, ?_⟩
  have hdm := Nat.div_add_mod k n
  rw [Nat.mul_comm] at hdm
  omega

theorem slotFacet_mem_facets (t : List Tri) {s j : ℕ} (hs : s < 3)
    (hj : j < t.length) :
    MeshTri.slotFacet s (t.getD j (0, 0, 0)) ∈ MeshTri.facets t := by
  rw [MeshTri.facets, mem_uniqueSorted]
  have hmem : t.getD j (0, 0, 0) ∈ t := by
    rw [List.getD_eq_getElem _ _ hj]; exact List.getElem_mem _
  interval_cases s
  · exact List.mem_append_left _ (List.mem_append_left _ (List.mem_map_of_mem _ hmem))
  · exact List.mem_append_left _ (List.mem_append_right _ (List.mem_map_of_mem _ hmem))
  · exact List.mem_append_right _ (List.mem_map_of_mem _ hmem)

theorem t2f_lt (t : List Tri) {s j : ℕ} (hs : s < 3) (hj : j < t.length) :
    MeshTri.t2f t s j < (MeshTri.facets t).length :=
  firstIdx_lt (slotFacet_mem_facets t hs hj)

theorem getD_reverse {β : Type} {l : List β} {i : ℕ} (h : i < l.length)
    (d : β) : l.reverse.getD i d = l.getD (l.length - 1 - i) d := by
  rw [List.getD_eq_getElem _ _ (by rwa [List.length_reverse]),
    List.getElem_reverse, ← List.getD_eq_getElem _ d (by omega)]

theorem exists_occ (t : List Tri) {f : ℕ}
    (hf : f < (MeshTri.facets t).length) :
    ∃ s j, s < 3 ∧ j < t.length ∧ MeshTri.t2f t s j = f := by
  have hmem : (MeshTri.facets t).getD f (0, 0) ∈ MeshTri.facetsAll t := by
    have := mem_of_getD (l := MeshTri.facets t) (d := (0, 0)) hf
    rwa [MeshTri.facets, mem_uniqueSorted] at this
  obtain ⟨k, hk, hkv⟩ := List.mem_iff_getElem.mp hmem
  rw [facetsAll_length] at hk
  obtain ⟨hs, hj, hdec⟩ := pos_decompose hk
  refine ⟨k / t.length, k % t.length, hs, hj, ?_⟩
  have h1 : (MeshTri.eTmp t).getD k 0 = f := by
    rw [MeshTri.eTmp, getD_map_of_lt _ _ (by rw [facetsAll_length]; exact hk) (0, 0)]
    rw [List.getD_eq_getElem _ _ (by rw [facetsAll_length]; exact hk), hkv]
    exact firstIdx_getD_nodup (nodup_uniqueSorted _ _) hf (0, 0)
  rw [← eTmp_getD t hs hj, hdec]
  exact h1

theorem occ_of_t2f (t : List Tri) {s j f : ℕ} (hs : s < 3) (hj : j < t.length)
    (hv : MeshTri.t2f t s j = f) :
    s * t.length + j < (MeshTri.eTmp t).length ∧
      (MeshTri.eTmp t).getD (s * t.length + j) 0 = f := by
  constructor
  · rw [eTmp_length]
    exact slot_pos_lt hs hj
  · rw [eTmp_getD t hs hj]; exact hv

theorem f_mem_eTmp (t : List Tri) {f : ℕ}
    (hf : f < (MeshTri.facets t).length) : f ∈ MeshTri.eTmp t := by
  obtain ⟨s, j, hs, hj, hv⟩ := exists_occ t hf
  obtain ⟨hk, hval⟩ := occ_of_t2f t hs hj hv
  rw [← hval]
  exact mem_of_getD hk

theorem first_spec (t : List Tri) {f : ℕ} (hmem : f ∈ MeshTri.eTmp t) :
    firstIdx f (MeshTri.eTmp t) < (MeshTri.eTmp t).length ∧
    (MeshTri.eTmp t).getD (firstIdx f (MeshTri.eTmp t)) 0 = f ∧
    (∀ k < (MeshTri.eTmp t).length, (MeshTri.eTmp t).getD k 0 = f →
      firstIdx f (MeshTri.eTmp t) ≤ k) :=
  ⟨firstIdx_lt hmem, getD_firstIdx hmem 0,
    fun _ hk hv => firstIdx_le hk hv⟩

theorem last_spec (t : List Tri) {f : ℕ} (hmem : f ∈ MeshTri.eTmp t) :
    MeshTri.lastPos t f < (MeshTri.eTmp t).length ∧
    (MeshTri.eTmp t).getD (MeshTri.lastPos t f) 0 = f ∧
    (∀ k < (MeshTri.eTmp t).length, (MeshTri.eTmp t).getD k 0 = f →
      k ≤ MeshTri.lastPos t f) := by
  have hlen : 0 < (MeshTri.eTmp t).length := List.length_pos_of_mem hmem
  have hmemr : f ∈ (MeshTri.eTmp t).reverse := List.mem_reverse.mpr hmem
  have hR : firstIdx f (MeshTri.eTmp t).reverse < (MeshTri.eTmp t).length := by
    have := firstIdx_lt hmemr
    rwa [List.length_reverse] at this
  refine ⟨by rw [MeshTri.lastPos]; omega, ?_, ?_⟩
  · have hv := getD_firstIdx hmemr (0 : ℕ)
    rw [getD_reverse hR] at hv
    exact hv
  · intro k hk hkv
    have hrev : (MeshTri.eTmp t).reverse.getD
        ((MeshTri.eTmp t).length - 1 - k) 0 = f := by
      rw [getD_reverse (by omega)]
      rw [show (MeshTri.eTmp t).length - 1 -
        ((MeshTri.eTmp t).length - 1 - k) = k by omega]
      exact hkv
    have := firstIdx_le (l := (MeshTri.eTmp t).reverse)
      (by rw [List.length_reverse]; omega) hrev
    rw [MeshTri.lastPos]
    omega

theorem slot_pos_mod {n s j : ℕ} (hj : j < n) : (s * n + j) % n = j := by
  rw [Nat.add_comm, Nat.add_mul_mod_self_right, Nat.mod_eq_of_lt hj]

theorem slotFacet_distinct {e : Tri} (h1 : e.1 < e.2.1) (h2 : e.2.1 < e.2.2)
    {s s' : ℕ} (hs : s < 3) (hs' : s' < 3)
    (heq : MeshTri.slotFacet s e = MeshTri.slotFacet s' e) : s = s' := by
  obtain ⟨a, b, c⟩ := e
  simp only at h1 h2
  have hab : a ≤ b := le_of_lt h1
  have hbc : b ≤ c := le_of_lt h2
  have hac : a ≤ c := le_of_lt (lt_trans h1 h2)
  interval_cases s <;> interval_cases s' <;>
    first
    | rfl
    | (simp only [MeshTri.slotFacet, pairSort, if_pos hab, if_pos hbc,
        if_pos hac, Prod.mk.injEq] at heq; omega)

theorem occ_inj (t : List Tri)
    (H1 : ∀ e ∈ t, e.1 < e.2.1 ∧ e.2.1 < e.2.2) {f k1 k2 : ℕ}
    (h1 : k1 < (MeshTri.eTmp t).length) (h2 : k2 < (MeshTri.eTmp t).length)
    (hv1 : (MeshTri.eTmp t).getD k1 0 = f)
    (hv2 : (MeshTri.eTmp t).getD k2 0 = f)
    (hres : k1 % t.length = k2 % t.length) : k1 = k2 := by
  rw [eTmp_length] at h1 h2
  obtain ⟨hs1, hj1, hd1⟩ := pos_decompose h1
  obtain ⟨hs2, hj2, hd2⟩ := pos_decompose h2
  have e1 : MeshTri.t2f t (k1 / t.length) (k1 % t.length) = f := by
    rw [← eTmp_getD t hs1 hj1, hd1]; exact hv1
  have e2 : MeshTri.t2f t (k2 / t.length) (k1 % t.length) = f := by
    rw [hres, ← eTmp_getD t hs2 hj2, hd2]; exact hv2
  have hfe : MeshTri.slotFacet (k1 / t.length) (t.getD (k1 % t.length) (0, 0, 0)) =
      MeshTri.slotFacet (k2 / t.length) (t.getD (k1 % t.length) (0, 0, 0)) := by
    apply firstIdx_inj (slotFacet_mem_facets t hs1 hj1)
      (slotFacet_mem_facets t hs2 hj1)
    rw [MeshTri.t2f] at e1 e2
    rw [e1, e2]
  have he := H1 (t.getD (k1 % t.length) (0, 0, 0)) (mem_of_getD hj1)
  have hss := slotFacet_distinct he.1 he.2 hs1 hs2 hfe
  rw [← hd1, ← hd2, hss, hres]

theorem ref_to_occ (t : List Tri) {f j : ℕ} (hj : j < t.length)
    (h : MeshTri.t2f t 0 j = f ∨ MeshTri.t2f t 1 j = f ∨ MeshTri.t2f t 2 j = f) :
    ∃ k, k < (MeshTri.eTmp t).length ∧ (MeshTri.eTmp t).getD k 0 = f ∧
      k % t.length = j := by
  rcases h with h | h | h
  · exact ⟨0 * t.length + j, (occ_of_t2f t (by omega) hj h).1,
      (occ_of_t2f t (by omega) hj h).2, slot_pos_mod hj⟩
  · exact ⟨1 * t.length + j, (occ_of_t2f t (by omega) hj h).1,
      (occ_of_t2f t (by omega) hj h).2, slot_pos_mod hj⟩
  · exact ⟨2 * t.length + j, (occ_of_t2f t (by omega) hj h).1,
      (occ_of_t2f t (by omega) hj h).2, slot_pos_mod hj⟩

theorem occ_to_ref (t : List Tri) {f k : ℕ}
    (hk : k < (MeshTri.eTmp t).length) (hv : (MeshTri.eTmp t).getD k 0 = f) :
    k % t.length < t.length ∧
      (MeshTri.t2f t 0 (k % t.length) = f ∨ MeshTri.t2f t 1 (k % t.length) = f ∨
        MeshTri.t2f t 2 (k % t.length) = f) := by
  rw [eTmp_length] at hk
  obtain ⟨hs, hj, hd⟩ := pos_decompose hk
  have e : MeshTri.t2f t (k / t.length) (k % t.length) = f := by
    rw [← eTmp_getD t hs hj, hd]; exact hv
  refine ⟨hj, ?_⟩
  have h3 : k / t.length = 0 ∨ k / t.length = 1 ∨ k / t.length = 2 := by
    revert hs
    generalize k / t.length = q
    omega
  rcases h3 with h | h | h <;> rw [h] at e <;> tauto

theorem f2t1_neg_iff (t : List Tri)
    (H1 : ∀ e ∈ t, e.1 < e.2.1 ∧ e.2.1 < e.2.2) {f : ℕ}
    (hf : f < (MeshTri.facets t).length) :
    MeshTri.f2t1 t f = -1 ↔ MeshTri.lastPos t f = firstIdx f (MeshTri.eTmp t) := by
  have hmem := f_mem_eTmp t hf
  obtain ⟨hF, hFv, _⟩ := first_spec t hmem
  obtain ⟨hL, hLv, _⟩ := last_spec t hmem
  rw [MeshTri.f2t1]
  constructor
  · intro hneg
    by_cases hcond : MeshTri.f2t1raw t f = MeshTri.f2t0 t f
    · exact occ_inj t H1 hL hF hLv hFv hcond
    · rw [if_neg hcond] at hneg
      exact absurd hneg (by omega)
  · intro hLF
    rw [if_pos (by rw [MeshTri.f2t1raw, MeshTri.f2t0, hLF])]

theorem refCount_pos_lt (t : List Tri) {f : ℕ}
    (hf : f < (MeshTri.facets t).length) : 0 < t.length := by
  obtain ⟨_, j, _, hj, _⟩ := exists_occ t hf
  omega

theorem refCount_one_iff_unique (t : List Tri)
    (H1 : ∀ e ∈ t, e.1 < e.2.1 ∧ e.2.1 < e.2.2) {f : ℕ}
    (hf : f < (MeshTri.facets t).length) :
    MeshTri.refCount t f = 1 ↔
      (∀ k1 < (MeshTri.eTmp t).length, ∀ k2 < (MeshTri.eTmp t).length,
        (MeshTri.eTmp t).getD k1 0 = f → (MeshTri.eTmp t).getD k2 0 = f →
        k1 = k2) := by
  have hne : 0 < t.length := refCount_pos_lt t hf
  constructor
  · intro hcount k1 hk1 k2 hk2 hv1 hv2
    by_cases hres : k1 % t.length = k2 % t.length
    · exact occ_inj t H1 hk1 hk2 hv1 hv2 hres
    · exfalso
      obtain ⟨hj1, hr1⟩ := occ_to_ref t hk1 hv1
      obtain ⟨hj2, hr2⟩ := occ_to_ref t hk2 hv2
      have hm1 : k1 % t.length ∈ (List.range t.length).filter
          (fun j => decide (MeshTri.t2f t 0 j = f ∨ MeshTri.t2f t 1 j = f ∨
            MeshTri.t2f t 2 j = f)) :=
        List.mem_filter.mpr ⟨List.mem_range.mpr hj1, by simpa using hr1⟩
      have hm2 : k2 % t.length ∈ (List.range t.length).filter
          (fun j => decide (MeshTri.t2f t 0 j = f ∨ MeshTri.t2f t 1 j = f ∨
            MeshTri.t2f t 2 j = f)) :=
        List.mem_filter.mpr ⟨List.mem_range.mpr hj2, by simpa using hr2⟩
      have h2le := two_le_length_of_two_mem hres hm1 hm2
      rw [MeshTri.refCount] at hcount
      omega
  · intro huniq
    have hmem := f_mem_eTmp t hf
    obtain ⟨hF, hFv, _⟩ := first_spec t hmem
    rw [MeshTri.refCount]
    apply length_filter_eq_one (List.nodup_range _)
      (a := firstIdx f (MeshTri.eTmp t) % t.length)
    · exact List.mem_range.mpr (Nat.mod_lt _ hne)
    · have := (occ_to_ref t hF hFv).2
      simpa using this
    · intro x hx hpx
      have hpx' : MeshTri.t2f t 0 x = f ∨ MeshTri.t2f t 1 x = f ∨
          MeshTri.t2f t 2 x = f := by simpa using hpx
      obtain ⟨k, hk, hkv, hkr⟩ := ref_to_occ t (List.mem_range.mp hx) hpx'
      rw [← hkr, huniq k hk (firstIdx f (MeshTri.eTmp t)) hF hkv hFv]

/-! ### Claim C7, amended -/

/-- Claim C7, amended: for a triangular mesh whose stored connectivity
has strictly increasing columns (no degenerate element) and in which no
facet is referenced by more than two elements, slot 0 of `f2t` is a
valid element index for every facet of the table, and slot 1 is the
sentinel `-1` exactly when the facet is referenced by exactly one
element. -/
theorem C7_f2t_invariant (t : List Tri)
    (H1 : ∀ e ∈ t, e.1 < e.2.1 ∧ e.2.1 < e.2.2)
    (H2 : ∀ f' < (MeshTri.facets t).length, MeshTri.refCount t f' ≤ 2)
    {f : ℕ} (hf : f < (MeshTri.facets t).length) :
    MeshTri.f2t0 t f < t.length ∧
    (MeshTri.f2t1 t f = -1 ↔ MeshTri.refCount t f = 1) := by
  have hne : 0 < t.length := refCount_pos_lt t hf
  have hmem := f_mem_eTmp t hf
  obtain ⟨hF, hFv, hFmin⟩ := first_spec t hmem
  obtain ⟨hL, hLv, hLmax⟩ := last_spec t hmem
  refine ⟨Nat.mod_lt _ hne, ?_⟩
  rw [f2t1_neg_iff t H1 hf, refCount_one_iff_unique t H1 hf]
  constructor
  · intro hLF k1 hk1 k2 hk2 hv1 hv2
    have hub1 := hLmax k1 hk1 hv1
    have hub2 := hLmax k2 hk2 hv2
    have hlb1 := hFmin k1 hk1 hv1
    have hlb2 := hFmin k2 hk2 hv2
    omega
  · intro huniq
    exact huniq _ hL _ hF hLv hFv

/-- Claim C7, amended, witness: the default mesh, facet 0. -/
theorem C7_witness :
    MeshTri.f2t0 (MeshTri.buildT MeshTri.tDef) 0 < 2 ∧
    (MeshTri.f2t1 (MeshTri.buildT MeshTri.tDef) 0 = -1 ↔
      MeshTri.refCount (MeshTri.buildT MeshTri.tDef) 0 = 1) := by
  have h := C7_f2t_invariant (MeshTri.buildT MeshTri.tDef)
    (by decide) (by decide) (f := 0) (by decide)
  exact h

/-! ### Claim C6, amended -/

theorem exists_two_of_length_two {l : List ℕ} (h : l.length = 2)
    (hnd : l.Nodup) : ∃ a b, a ≠ b ∧ a ∈ l ∧ b ∈ l := by
  rcases l with _ | ⟨a, _ | ⟨b, _ | _⟩⟩ <;> simp_all
  exact ⟨a, b, hnd, Or.inl rfl, Or.inr rfl⟩

/-- Claim C6, amended: for a triangular mesh with nondegenerate stored
columns, when a facet of the table is referenced by exactly two
elements, slot 0 of `f2t` holds the element of the facet's first
occurrence in slot-major scan order (all local slot-0 facets of every
element, then slot 1, then slot 2) — not the first element by element
index — and slot 1 holds the other referencing element. -/
theorem C6_slot_assignment (t : List Tri)
    (H1 : ∀ e ∈ t, e.1 < e.2.1 ∧ e.2.1 < e.2.2) {f : ℕ}
    (hf : f < (MeshTri.facets t).length)
    (h2 : MeshTri.refCount t f = 2) :
    ∃ s j s' j', s < 3 ∧ j < t.length ∧ s' < 3 ∧ j' < t.length ∧
      MeshTri.t2f t s j = f ∧ MeshTri.t2f t s' j' = f ∧
      MeshTri.f2t0 t f = j ∧ j ≠ j' ∧ MeshTri.f2t1 t f = (j' : ℤ) ∧
      (∀ s'' j'', s'' < 3 → j'' < t.length → MeshTri.t2f t s'' j'' = f →
        s * t.length + j ≤ s'' * t.length + j'') := by
  have hne : 0 < t.length := refCount_pos_lt t hf
  have hmem := f_mem_eTmp t hf
  obtain ⟨hF, hFv, hFmin⟩ := first_spec t hmem
  obtain ⟨hL, hLv, hLmax⟩ := last_spec t hmem
  -- two distinct referencing elements exist
  have hnotuniq : ¬ (∀ k1 < (MeshTri.eTmp t).length,
      ∀ k2 < (MeshTri.eTmp t).length, (MeshTri.eTmp t).getD k1 0 = f →
      (MeshTri.eTmp t).getD k2 0 = f → k1 = k2) := by
    rw [← refCount_one_iff_unique t H1 hf]
    omega
  have hFL : firstIdx f (MeshTri.eTmp t) ≠ MeshTri.lastPos t f := by
    intro hEq
    apply hnotuniq
    intro k1 hk1 k2 hk2 hv1 hv2
    have := hFmin k1 hk1 hv1
    have := hFmin k2 hk2 hv2
    have := hLmax k1 hk1 hv1
    have := hLmax k2 hk2 hv2
    omega
  have hFbound : firstIdx f (MeshTri.eTmp t) < 3 * t.length := by
    rw [← eTmp_length]; exact hF
  have hLbound : MeshTri.lastPos t f < 3 * t.length := by
    rw [← eTmp_length]; exact hL
  obtain ⟨hs, hj, hd⟩ := pos_decompose hFbound
  obtain ⟨hs', hj', hd'⟩ := pos_decompose hLbound
  have hjj : firstIdx f (MeshTri.eTmp t) % t.length ≠
      MeshTri.lastPos t f % t.length := by
    intro hEq
    exact hFL (occ_inj t H1 hF hL hFv hLv hEq)
  refine ⟨firstIdx f (MeshTri.eTmp t) / t.length,
    firstIdx f (MeshTri.eTmp t) % t.length,
    MeshTri.lastPos t f / t.length, MeshTri.lastPos t f % t.length,
    hs, hj, hs', hj', ?_, ?_, rfl, hjj, ?_, ?_⟩
  · rw [← eTmp_getD t hs hj, hd]; exact hFv
  · rw [← eTmp_getD t hs' hj', hd']; exact hLv
  · have hcond : ¬ (MeshTri.f2t1raw t f = MeshTri.f2t0 t f) := by
      rw [MeshTri.f2t1raw, MeshTri.f2t0]
      exact fun hc => hjj hc.symm
    rw [MeshTri.f2t1, if_neg hcond, MeshTri.f2t1raw]
  · intro s'' j'' hs'' hj'' hv''
    have hocc := occ_of_t2f t hs'' hj'' hv''
    have := hFmin _ hocc.1 hocc.2
    omega

/-- Claim C6, amended, witness: the default mesh, facet 2 (the diagonal). -/
theorem C6_witness :
    ∃ s j s' j', s < 3 ∧ j < 2 ∧ s' < 3 ∧ j' < 2 ∧
      MeshTri.t2f (MeshTri.buildT MeshTri.tDef) s j = 2 ∧
      MeshTri.t2f (MeshTri.buildT MeshTri.tDef) s' j' = 2 ∧
      MeshTri.f2t0 (MeshTri.buildT MeshTri.tDef) 2 = j ∧ j ≠ j' ∧
      MeshTri.f2t1 (MeshTri.buildT MeshTri.tDef) 2 = (j' : ℤ) ∧
      (∀ s'' j'', s'' < 3 → j'' < 2 →
        MeshTri.t2f (MeshTri.buildT MeshTri.tDef) s'' j'' = 2 →
        s * 2 + j ≤ s'' * 2 + j'') :=
  C6_slot_assignment (MeshTri.buildT MeshTri.tDef) (by decide) (f := 2)
    (by decide) (by decide)

/-! ### Claim C5, amended -/

/-- Claim C5, amended: building the connectivity tables never fails —
whenever validation passes, construction returns the stored mesh even if
some facet is referenced by three or more elements, and slot 0 of `f2t`
holds a valid element index for every facet of the table (the first and
last referencing occurrences in slot-major order occupy the two slots). -/
theorem C5_no_nonmanifold_error (p : List Pt2) (t : List Tri) (f0 : ℕ)
    (hv : MeshTri.validate p t = true)
    (h3 : 3 ≤ MeshTri.refCount (MeshTri.buildT t) f0) :
    MeshTri.init p t = Except.ok (p, MeshTri.buildT t) ∧
    (∀ f < (MeshTri.facets (MeshTri.buildT t)).length,
      MeshTri.f2t0 (MeshTri.buildT t) f < (MeshTri.buildT t).length) := by
  constructor
  · rw [MeshTri.init, if_pos hv]
  · intro f hf
    exact Nat.mod_lt _ (refCount_pos_lt _ hf)

/-- Claim C5, amended, witness: the three-triangle non-manifold mesh. -/
theorem C5_witness :
    MeshTri.init MeshTri.pNM MeshTri.tNM =
      Except.ok (MeshTri.pNM, MeshTri.buildT MeshTri.tNM) ∧
    (∀ f < (MeshTri.facets (MeshTri.buildT MeshTri.tNM)).length,
      MeshTri.f2t0 (MeshTri.buildT MeshTri.tNM) f <
        (MeshTri.buildT MeshTri.tNM).length) :=
  C5_no_nonmanifold_error MeshTri.pNM MeshTri.tNM 0 (by decide) (by decide)

/-! ### Claim C8, amended -/

theorem pairSort_le_snd (a b : ℕ) : a ≤ (pairSort a b).2 ∧ b ≤ (pairSort a b).2 := by
  rw [pairSort]
  split_ifs <;> constructor <;> simp <;> omega

/-- Claim C8, amended: validation does not compare connectivity entries
with the vertex count.  A mesh whose connectivity names a nonexistent
vertex passes validation and constructs successfully whenever every
valid vertex index appears in some element and no two vertex coordinate
pairs coincide — and the facet table then references the nonexistent
vertex. -/
theorem C8_no_range_check (p : List Pt2) (t : List Tri)
    (hcov : ∀ v < p.length, v ∈ MeshTri.tVerts t)
    (hnd : p.Nodup)
    (hoor : ∃ e ∈ t, p.length ≤ e.1 ∨ p.length ≤ e.2.1 ∨ p.length ≤ e.2.2) :
    MeshTri.validate p t = true ∧
    MeshTri.init p t = Except.ok (p, MeshTri.buildT t) ∧
    ∃ fa ∈ MeshTri.facets (MeshTri.buildT t), p.length ≤ fa.2 := by
  have hval : MeshTri.validate p t = true := by
    rw [MeshTri.validate]
    simp only [Bool.and_eq_true, decide_eq_true_eq]
    exact ⟨fun v hv => hcov v (List.mem_range.mp hv), hnd⟩
  refine ⟨hval, by rw [MeshTri.init, if_pos hval], ?_⟩
  obtain ⟨e, he, hle⟩ := hoor
  refine ⟨MeshTri.slotFacet 1 (MeshTri.sort3 e), ?_, ?_⟩
  · rw [MeshTri.facets, mem_uniqueSorted]
    exact List.mem_append_left _ (List.mem_append_right _
      (List.mem_map_of_mem _ (List.mem_map_of_mem _ he)))
  · have hmax := sort3_max e
    have hp := pairSort_le_snd (MeshTri.sort3 e).2.1 (MeshTri.sort3 e).2.2
    have : p.length ≤ (MeshTri.sort3 e).2.2 := by
      rcases hle with h | h | h <;> omega
    calc p.length ≤ (MeshTri.sort3 e).2.2 := this
      _ ≤ (MeshTri.slotFacet 1 (MeshTri.sort3 e)).2 := hp.2

/-- Claim C8, amended, witness: the out-of-range mesh `tOOR`. -/
theorem C8_witness :
    MeshTri.validate MeshTri.pDef MeshTri.tOOR = true ∧
    MeshTri.init MeshTri.pDef MeshTri.tOOR =
      Except.ok (MeshTri.pDef, MeshTri.buildT MeshTri.tOOR) ∧
    ∃ fa ∈ MeshTri.facets (MeshTri.buildT MeshTri.tOOR),
      MeshTri.pDef.length ≤ fa.2 :=
  C8_no_range_check MeshTri.pDef MeshTri.tOOR (by decide) (by decide)
    ⟨(2, 3, 7), by decide, by decide⟩

/-! ### Claim C3: one tetrahedral refinement step -/

theorem c_trichotomy (p : List Pt3) (t : List Tet) (i : ℕ) :
    (MeshTet.c1 p t i ∧ ¬ MeshTet.c2 p t i ∧ ¬ MeshTet.c3 p t i) ∨
    (¬ MeshTet.c1 p t i ∧ MeshTet.c2 p t i ∧ ¬ MeshTet.c3 p t i) ∨
    (¬ MeshTet.c1 p t i ∧ ¬ MeshTet.c2 p t i ∧ MeshTet.c3 p t i) := by
  unfold MeshTet.c1 MeshTet.c2 MeshTet.c3
  rcases Classical.em (MeshTet.d1 p t i < MeshTet.d2 p t i) with h12 | h12 <;>
    rcases Classical.em (MeshTet.d1 p t i < MeshTet.d3 p t i) with h13 | h13 <;>
    rcases Classical.em (MeshTet.d2 p t i < MeshTet.d3 p t i) with h23 | h23
  · exact Or.inl ⟨⟨h12, h13⟩, fun hc => hc.1 h12, fun hc => hc.1 h13⟩
  · exact Or.inl ⟨⟨h12, h13⟩, fun hc => hc.1 h12, fun hc => hc.1 h13⟩
  · exact absurd (lt_trans h23 (lt_of_le_of_lt (not_lt.mp h13) h12))
      (lt_irrefl _)
  · exact Or.inr (Or.inr ⟨fun hc => h13 hc.2, fun hc => hc.1 h12, h13, h23⟩)
  · exact Or.inr (Or.inl ⟨fun hc => h12 hc.1, ⟨h12, h23⟩, fun hc => hc.1 h13⟩)
  · exact absurd (lt_of_lt_of_le h13 (le_trans (not_lt.mp h23) (not_lt.mp h12)))
      (lt_irrefl _)
  · exact Or.inr (Or.inl ⟨fun hc => h12 hc.1, ⟨h12, h23⟩, fun hc => hc.2 h23⟩)
  · exact Or.inr (Or.inr ⟨fun hc => h12 hc.1, fun hc => h23 hc.2, h13, h23⟩)

/-- Claim C3: a tetrahedral refinement step yields `V + E` vertices and
`8·Ne` elements: the four corner blocks contribute `4·Ne` children, and
the three diagonal cases are mutually exclusive and exhaustive, so the
twelve case blocks contribute exactly four central children per original
element. -/
theorem C3_tet_refine (p : List Pt3) (t : List Tet) (i : ℕ)
    (h : i < t.length) :
    (MeshTet.refineP p t).length = p.length + (MeshTet.edges t).length ∧
    (MeshTet.refineT p t).length = 8 * t.length ∧
    ((MeshTet.c1 p t i ∧ ¬ MeshTet.c2 p t i ∧ ¬ MeshTet.c3 p t i) ∨
     (¬ MeshTet.c1 p t i ∧ MeshTet.c2 p t i ∧ ¬ MeshTet.c3 p t i) ∨
     (¬ MeshTet.c1 p t i ∧ ¬ MeshTet.c2 p t i ∧ MeshTet.c3 p t i)) := by
  refine ⟨by simp [MeshTet.refineP], ?_, c_trichotomy p t i⟩
  have hpart := length_filter_partition (l := List.range t.length)
    (p := fun j => decide (MeshTet.c1 p t j))
    (q := fun j => decide (MeshTet.c2 p t j))
    (r := fun j => decide (MeshTet.c3 p t j))
    (fun j _ => by
      rcases c_trichotomy p t j with ⟨a, b, c⟩ | ⟨a, b, c⟩ | ⟨a, b, c⟩
      · exact Or.inl ⟨decide_eq_true a, decide_eq_false b, decide_eq_false c⟩
      · exact Or.inr (Or.inl
          ⟨decide_eq_false a, decide_eq_true b, decide_eq_false c⟩)
      · exact Or.inr (Or.inr
          ⟨decide_eq_false a, decide_eq_false b, decide_eq_true c⟩))
  simp only [MeshTet.refineT, List.length_append, List.length_map,
    List.length_range] at *
  omega

/-- Claim C3, witness: the reference tetrahedron. -/
theorem C3_witness :
    (MeshTet.refineP MeshTet.pRef MeshTet.tRef).length = 4 + 6 ∧
    (MeshTet.refineT MeshTet.pRef MeshTet.tRef).length = 8 * 1 := by
  have h := C3_tet_refine MeshTet.pRef MeshTet.tRef 0 (by decide)
  refine ⟨?_, ?_⟩
  · rw [h.1]; decide
  · rw [h.2.1]; decide

/-! ### Claim C1: the central diagonal selection -/

/-- Claim C1, amended: every tetrahedral refinement step selects, per
element, a diagonal of minimal squared length measured in the first two
coordinate components; ties are resolved by the masks of the source,
which prefer (I,VI) over (II,IV) over (III,V) — `[0,5]` beats `[1,3]`
beats `[2,4]`, the reverse of the order the claim states — and the four
central children generated for the element are columns of the refined
connectivity each containing both endpoints of the selected diagonal. -/
theorem C1_diag_selection (p : List Pt3) (t : List Tet) (i : ℕ)
    (h : i < t.length) :
    MeshTet.chosenD p t i ≤ MeshTet.d1 p t i ∧
    MeshTet.chosenD p t i ≤ MeshTet.d2 p t i ∧
    MeshTet.chosenD p t i ≤ MeshTet.d3 p t i ∧
    (MeshTet.centralOf p t i).length = 4 ∧
    (∀ ch ∈ MeshTet.centralOf p t i, ch ∈ MeshTet.refineT p t ∧
      MeshTet.memTet (MeshTet.codeDiag p t i).1 ch ∧
      MeshTet.memTet (MeshTet.codeDiag p t i).2 ch) := by
  rcases c_trichotomy p t i with ⟨hc1, hc2, hc3⟩ | ⟨hc1, hc2, hc3⟩ |
    ⟨hc1, hc2, hc3⟩
  · simp only [MeshTet.chosenD, MeshTet.codeDiag, MeshTet.centralOf,
      if_pos hc1]
    refine ⟨le_refl _, le_of_lt hc1.1, le_of_lt hc1.2, rfl, ?_⟩
    intro ch hch
    have hfm : i ∈ (List.range t.length).filter
        (fun j => decide (MeshTet.c1 p t j)) :=
      List.mem_filter.mpr ⟨List.mem_range.mpr h, decide_eq_true hc1⟩
    have hm1 := List.mem_map_of_mem (fun i => (MeshTet.t2es p t 2 i,
      MeshTet.t2es p t 4 i, MeshTet.t2es p t 0 i, MeshTet.t2es p t 1 i)) hfm
    have hm2 := List.mem_map_of_mem (fun i => (MeshTet.t2es p t 2 i,
      MeshTet.t2es p t 4 i, MeshTet.t2es p t 0 i, MeshTet.t2es p t 3 i)) hfm
    have hm3 := List.mem_map_of_mem (fun i => (MeshTet.t2es p t 2 i,
      MeshTet.t2es p t 4 i, MeshTet.t2es p t 1 i, MeshTet.t2es p t 5 i)) hfm
    have hm4 := List.mem_map_of_mem (fun i => (MeshTet.t2es p t 2 i,
      MeshTet.t2es p t 4 i, MeshTet.t2es p t 3 i, MeshTet.t2es p t 5 i)) hfm
    simp only [List.mem_cons, List.not_mem_nil, or_false] at hch
    rcases hch with rfl | rfl | rfl | rfl
    · refine ⟨?_, Or.inl rfl, Or.inr (Or.inl rfl)⟩
      simp only [MeshTet.refineT, List.mem_append, or_assoc]
      exact Or.inr (Or.inr (Or.inr (Or.inr (Or.inl hm1))))
    · refine ⟨?_, Or.inl rfl, Or.inr (Or.inl rfl)⟩
      simp only [MeshTet.refineT, List.mem_append, or_assoc]
      exact Or.inr (Or.inr (Or.inr (Or.inr (Or.inr (Or.inl hm2)))))
    · refine ⟨?_, Or.inl rfl, Or.inr (Or.inl rfl)⟩
      simp only [MeshTet.refineT, List.mem_append, or_assoc]
      exact Or.inr (Or.inr (Or.inr (Or.inr (Or.inr (Or.inr (Or.inl hm3))))))
    · refine ⟨?_, Or.inl rfl, Or.inr (Or.inl rfl)⟩
      simp only [MeshTet.refineT, List.mem_append, or_assoc]
      exact Or.inr (Or.inr (Or.inr (Or.inr (Or.inr (Or.inr (Or.inr
        (Or.inl hm4)))))))
  · simp only [MeshTet.chosenD, MeshTet.codeDiag, MeshTet.centralOf,
      if_neg hc1, if_pos hc2]
    refine ⟨not_lt.mp hc2.1, le_refl _, le_of_lt hc2.2, rfl, ?_⟩
    intro ch hch
    have hfm : i ∈ (List.range t.length).filter
        (fun j => decide (MeshTet.c2 p t j)) :=
      List.mem_filter.mpr ⟨List.mem_range.mpr h, decide_eq_true hc2⟩
    have hm1 := List.mem_map_of_mem (fun i => (MeshTet.t2es p t 1 i,
      MeshTet.t2es p t 3 i, MeshTet.t2es p t 0 i, MeshTet.t2es p t 4 i)) hfm
    have hm2 := List.mem_map_of_mem (fun i => (MeshTet.t2es p t 1 i,
      MeshTet.t2es p t 3 i, MeshTet.t2es p t 4 i, MeshTet.t2es p t 5 i)) hfm
    have hm3 := List.mem_map_of_mem (fun i => (MeshTet.t2es p t 1 i,
      MeshTet.t2es p t 3 i, MeshTet.t2es p t 5 i, MeshTet.t2es p t 2 i)) hfm
    have hm4 := List.mem_map_of_mem (fun i => (MeshTet.t2es p t 1 i,
      MeshTet.t2es p t 3 i, MeshTet.t2es p t 2 i, MeshTet.t2es p t 0 i)) hfm
    simp only [List.mem_cons, List.not_mem_nil, or_false] at hch
    rcases hch with rfl | rfl | rfl | rfl
    · refine ⟨?_, Or.inl rfl, Or.inr (Or.inl rfl)⟩
      simp only [MeshTet.refineT, List.mem_append, or_assoc]
      exact Or.inr (Or.inr (Or.inr (Or.inr (Or.inr (Or.inr (Or.inr (Or.inr
        (Or.inl hm1))))))))
    · refine ⟨?_, Or.inl rfl, Or.inr (Or.inl rfl)⟩
      simp only [MeshTet.refineT, List.mem_append, or_assoc]
      exact Or.inr (Or.inr (Or.inr (Or.inr (Or.inr (Or.inr (Or.inr (Or.inr
        (Or.inr (Or.inl hm2)))))))))
    · refine ⟨?_, Or.inl rfl, Or.inr (Or.inl rfl)⟩
      simp only [MeshTet.refineT, List.mem_append, or_assoc]
      exact Or.inr (Or.inr (Or.inr (Or.inr (Or.inr (Or.inr (Or.inr (Or.inr
        (Or.inr (Or.inr (Or.inl hm3))))))))))
    · refine ⟨?_, Or.inl rfl, Or.inr (Or.inl rfl)⟩
      simp only [MeshTet.refineT, List.mem_append, or_assoc]
      exact Or.inr (Or.inr (Or.inr (Or.inr (Or.inr (Or.inr (Or.inr (Or.inr
        (Or.inr (Or.inr (Or.inr (Or.inl hm4)))))))))))
  · simp only [MeshTet.chosenD, MeshTet.codeDiag, MeshTet.centralOf,
      if_neg hc1, if_neg hc2]
    refine ⟨not_lt.mp hc3.1, not_lt.mp hc3.2, le_refl _, rfl, ?_⟩
    intro ch hch
    have hfm : i ∈ (List.range t.length).filter
        (fun j => decide (MeshTet.c3 p t j)) :=
      List.mem_filter.mpr ⟨List.mem_range.mpr h, decide_eq_true hc3⟩
    have hm1 := List.mem_map_of_mem (fun i => (MeshTet.t2es p t 0 i,
      MeshTet.t2es p t 5 i, MeshTet.t2es p t 1 i, MeshTet.t2es p t 4 i)) hfm
    have hm2 := List.mem_map_of_mem (fun i => (MeshTet.t2es p t 0 i,
      MeshTet.t2es p t 5 i, MeshTet.t2es p t 4 i, MeshTet.t2es p t 3 i)) hfm
    have hm3 := List.mem_map_of_mem (fun i => (MeshTet.t2es p t 0 i,
      MeshTet.t2es p t 5 i, MeshTet.t2es p t 3 i, MeshTet.t2es p t 2 i)) hfm
    have hm4 := List.mem_map_of_mem (fun i => (MeshTet.t2es p t 0 i,
      MeshTet.t2es p t 5 i, MeshTet.t2es p t 2 i, MeshTet.t2es p t 1 i)) hfm
    simp only [List.mem_cons, List.not_mem_nil, or_false] at hch
    rcases hch with rfl | rfl | rfl | rfl
    · refine ⟨?_, Or.inl rfl, Or.inr (Or.inl rfl)⟩
      simp only [MeshTet.refineT, List.mem_append, or_assoc]
      exact Or.inr (Or.inr (Or.inr (Or.inr (Or.inr (Or.inr (Or.inr (Or.inr
        (Or.inr (Or.inr (Or.inr (Or.inr (Or.inl hm1))))))))))))
    · refine ⟨?_, Or.inl rfl, Or.inr (Or.inl rfl)⟩
      simp only [MeshTet.refineT, List.mem_append, or_assoc]
      exact Or.inr (Or.inr (Or.inr (Or.inr (Or.inr (Or.inr (Or.inr (Or.inr
        (Or.inr (Or.inr (Or.inr (Or.inr (Or.inr (Or.inl hm2)))))))))))))
    · refine ⟨?_, Or.inl rfl, Or.inr (Or.inl rfl)⟩
      simp only [MeshTet.refineT, List.mem_append, or_assoc]
      exact Or.inr (Or.inr (Or.inr (Or.inr (Or.inr (Or.inr (Or.inr (Or.inr
        (Or.inr (Or.inr (Or.inr (Or.inr (Or.inr (Or.inr (Or.inl hm3))))))))))))))
    · refine ⟨?_, Or.inl rfl, Or.inr (Or.inl rfl)⟩
      simp only [MeshTet.refineT, List.mem_append, or_assoc]
      exact Or.inr (Or.inr (Or.inr (Or.inr (Or.inr (Or.inr (Or.inr (Or.inr
        (Or.inr (Or.inr (Or.inr (Or.inr (Or.inr (Or.inr (Or.inr hm4))))))))))))))

/-- Claim C1, amended, witness: the reference tetrahedron, element 0. -/
theorem C1_witness :
    MeshTet.chosenD MeshTet.pRef MeshTet.tRef 0 ≤
      MeshTet.d1 MeshTet.pRef MeshTet.tRef 0 ∧
    MeshTet.chosenD MeshTet.pRef MeshTet.tRef 0 ≤
      MeshTet.d2 MeshTet.pRef MeshTet.tRef 0 ∧
    MeshTet.chosenD MeshTet.pRef MeshTet.tRef 0 ≤
      MeshTet.d3 MeshTet.pRef MeshTet.tRef 0 ∧
    (MeshTet.centralOf MeshTet.pRef MeshTet.tRef 0).length = 4 ∧
    (∀ ch ∈ MeshTet.centralOf MeshTet.pRef MeshTet.tRef 0,
      ch ∈ MeshTet.refineT MeshTet.pRef MeshTet.tRef ∧
      MeshTet.memTet (MeshTet.codeDiag MeshTet.pRef MeshTet.tRef 0).1 ch ∧
      MeshTet.memTet (MeshTet.codeDiag MeshTet.pRef MeshTet.tRef 0).2 ch) :=
  C1_diag_selection MeshTet.pRef MeshTet.tRef 0 (by decide)

theorem edges_tRef : MeshTet.edges MeshTet.tRef =
    [(0, 1), (0, 2), (0, 3), (1, 2), (1, 3), (2, 3)] := by decide

theorem refineP_tRef : MeshTet.refineP MeshTet.pRef MeshTet.tRef =
    [(0, 0, 0), (1, 0, 0), (0, 1, 0), (0, 0, 1),
     (1/2, 0, 0), (0, 1/2, 0), (0, 0, 1/2),
     (1/2, 1/2, 0), (1/2, 0, 1/2), (0, 1/2, 1/2)] := by
  rw [MeshTet.refineP, edges_tRef]
  norm_num [MeshTet.midpoint3, MeshTet.pRef]

theorem d_tRef : MeshTet.d1 MeshTet.pRef MeshTet.tRef 0 = 1/2 ∧
    MeshTet.d2 MeshTet.pRef MeshTet.tRef 0 = 1/2 ∧
    MeshTet.d3 MeshTet.pRef MeshTet.tRef 0 = 1/2 := by
  have h0 : MeshTet.t2es MeshTet.pRef MeshTet.tRef 0 0 = 4 := by decide
  have h1 : MeshTet.t2es MeshTet.pRef MeshTet.tRef 1 0 = 7 := by decide
  have h2 : MeshTet.t2es MeshTet.pRef MeshTet.tRef 2 0 = 5 := by decide
  have h3 : MeshTet.t2es MeshTet.pRef MeshTet.tRef 3 0 = 6 := by decide
  have h4 : MeshTet.t2es MeshTet.pRef MeshTet.tRef 4 0 = 8 := by decide
  have h5 : MeshTet.t2es MeshTet.pRef MeshTet.tRef 5 0 = 9 := by decide
  refine ⟨?_, ?_, ?_⟩
  · rw [MeshTet.d1, MeshTet.dOf, h2, h4, refineP_tRef]
    norm_num [MeshTet.nget]
  · rw [MeshTet.d2, MeshTet.dOf, h1, h3, refineP_tRef]
    norm_num [MeshTet.nget]
  · rw [MeshTet.d3, MeshTet.dOf, h0, h5, refineP_tRef]
    norm_num [MeshTet.nget]

theorem c_tRef : ¬ MeshTet.c1 MeshTet.pRef MeshTet.tRef 0 ∧
    ¬ MeshTet.c2 MeshTet.pRef MeshTet.tRef 0 ∧
    MeshTet.c3 MeshTet.pRef MeshTet.tRef 0 := by
  obtain ⟨h1, h2, h3⟩ := d_tRef
  refine ⟨?_, ?_, ?_⟩
  · rw [MeshTet.c1, h1, h2, h3]
    norm_num
  · rw [MeshTet.c2, h1, h2, h3]
    norm_num
  · rw [MeshTet.c3, h1, h2, h3]
    norm_num

theorem filter_c1_tRef : (List.range MeshTet.tRef.length).filter
    (fun i => decide (MeshTet.c1 MeshTet.pRef MeshTet.tRef i)) = [] := by
  have hd : decide (MeshTet.c1 MeshTet.pRef MeshTet.tRef 0) = false :=
    decide_eq_false c_tRef.1
  rw [show List.range MeshTet.tRef.length = [0] from by decide]
  simp [List.filter_cons, List.filter_nil, hd]

theorem filter_c2_tRef : (List.range MeshTet.tRef.length).filter
    (fun i => decide (MeshTet.c2 MeshTet.pRef MeshTet.tRef i)) = [] := by
  have hd : decide (MeshTet.c2 MeshTet.pRef MeshTet.tRef 0) = false :=
    decide_eq_false c_tRef.2.1
  rw [show List.range MeshTet.tRef.length = [0] from by decide]
  simp [List.filter_cons, List.filter_nil, hd]

theorem filter_c3_tRef : (List.range MeshTet.tRef.length).filter
    (fun i => decide (MeshTet.c3 MeshTet.pRef MeshTet.tRef i)) = [0] := by
  have hd : decide (MeshTet.c3 MeshTet.pRef MeshTet.tRef 0) = true :=
    decide_eq_true c_tRef.2.2
  rw [show List.range MeshTet.tRef.length = [0] from by decide]
  simp [List.filter_cons, List.filter_nil, hd]

theorem refineT_tRef : MeshTet.refineT MeshTet.pRef MeshTet.tRef =
    [(0, 4, 5, 6), (1, 4, 7, 8), (2, 7, 5, 9), (3, 6, 8, 9),
     (4, 9, 7, 8), (4, 9, 8, 6), (4, 9, 6, 5), (4, 9, 5, 7)] := by
  rw [MeshTet.refineT, filter_c1_tRef, filter_c2_tRef, filter_c3_tRef]
  decide

theorem specDiag_tRef :
    MeshTet.specDiag MeshTet.pRef MeshTet.tRef 0 = (7, 6) := by
  obtain ⟨h1, h2, h3⟩ := d_tRef
  rw [MeshTet.specDiag, h1, h2, h3, if_pos (by norm_num)]
  decide

/-- Claim C1, counterexample: for the reference tetrahedron, the three
candidate diagonals tie (`d1 = d2 = d3 = 1/2` in the planar metric), so
the rule the claim states selects the first listed candidate (II,IV) —
midpoint indices `(7, 6)` — but the source takes case 3 and fans the
central children around (I,VI): the child `(4, 9, 7, 8)` does not
contain vertex `6`, so not every central child contains both endpoints
of the claim's diagonal. -/
theorem C1_counterexample :
    MeshTet.specDiag MeshTet.pRef MeshTet.tRef 0 = (7, 6) ∧
    (4, 9, 7, 8) ∈ (MeshTet.refineT MeshTet.pRef MeshTet.tRef).drop
      (4 * MeshTet.tRef.length) ∧
    ¬ MeshTet.memTet 6 (4, 9, 7, 8) ∧
    ¬ MeshTet.claimC1 MeshTet.pRef MeshTet.tRef := by
  refine ⟨specDiag_tRef, ?_, by decide, ?_⟩
  · rw [refineT_tRef]; decide
  · intro hcl
    have h2 := hcl (4, 9, 7, 8) (by rw [refineT_tRef]; decide)
    rw [specDiag_tRef] at h2
    exact (by decide : ¬ MeshTet.memTet 6 (4, 9, 7, 8)) h2.2

/-! ### Claim C9: translation commutes with one refinement step -/

theorem pairSort_lt {a b n : ℕ} (ha : a < n) (hb : b < n) :
    (pairSort a b).1 < n ∧ (pairSort a b).2 < n := by
  rw [pairSort]
  split_ifs <;> first | exact ⟨ha, hb⟩ | exact ⟨hb, ha⟩

theorem translate2_length (v : Pt2) (p : List Pt2) :
    (MeshTri.translate v p).length = p.length := by
  simp [MeshTri.translate]

theorem translate3_length (v : Pt3) (p : List Pt3) :
    (MeshTet.translate v p).length = p.length := by
  simp [MeshTet.translate]

theorem facets_vert_lt (t : List Tri) {n : ℕ}
    (hr : ∀ e ∈ t, e.1 < n ∧ e.2.1 < n ∧ e.2.2 < n) {fa : ℕ × ℕ}
    (hfa : fa ∈ MeshTri.facets t) : fa.1 < n ∧ fa.2 < n := by
  rw [MeshTri.facets, mem_uniqueSorted] at hfa
  simp only [MeshTri.facetsAll, List.mem_append, List.mem_map] at hfa
  rcases hfa with (⟨e, he, rfl⟩ | ⟨e, he, rfl⟩) | ⟨e, he, rfl⟩ <;>
    have hb := hr e he <;> simp only [MeshTri.slotFacet]
  · exact pairSort_lt hb.1 hb.2.1
  · exact pairSort_lt hb.2.1 hb.2.2
  · exact pairSort_lt hb.1 hb.2.2

theorem edges_vert_lt (t : List Tet) {n : ℕ}
    (hr : ∀ e ∈ t, e.1 < n ∧ e.2.1 < n ∧ e.2.2.1 < n ∧ e.2.2.2 < n)
    {fa : ℕ × ℕ} (hfa : fa ∈ MeshTet.edges t) : fa.1 < n ∧ fa.2 < n := by
  rw [MeshTet.edges, mem_uniqueSorted] at hfa
  simp only [MeshTet.edgesAll, List.mem_append, List.mem_map] at hfa
  rcases hfa with ((((⟨e, he, rfl⟩ | ⟨e, he, rfl⟩) | ⟨e, he, rfl⟩) |
    ⟨e, he, rfl⟩) | ⟨e, he, rfl⟩) | ⟨e, he, rfl⟩ <;>
    have hb := hr e he <;> simp only [MeshTet.slotEdge]
  · exact pairSort_lt hb.1 hb.2.1
  · exact pairSort_lt hb.2.1 hb.2.2.1
  · exact pairSort_lt hb.1 hb.2.2.1
  · exact pairSort_lt hb.1 hb.2.2.2
  · exact pairSort_lt hb.2.1 hb.2.2.2
  · exact pairSort_lt hb.2.2.1 hb.2.2.2

theorem getD_translate2 (v : Pt2) (p : List Pt2) {k : ℕ} (hk : k < p.length) :
    (MeshTri.translate v p).getD k (0, 0) =
      ((p.getD k (0, 0)).1 + v.1, (p.getD k (0, 0)).2 + v.2) := by
  rw [MeshTri.translate, getD_map_of_lt _ _ hk (0, 0)]

theorem getD_translate3 (v : Pt3) (p : List Pt3) {k : ℕ} (hk : k < p.length) :
    (MeshTet.translate v p).getD k (0, 0, 0) =
      ((p.getD k (0, 0, 0)).1 + v.1, (p.getD k (0, 0, 0)).2.1 + v.2.1,
       (p.getD k (0, 0, 0)).2.2 + v.2.2) := by
  rw [MeshTet.translate, getD_map_of_lt _ _ hk (0, 0, 0)]

theorem midpoint2_translate (v : Pt2) (p : List Pt2) {fa : ℕ × ℕ}
    (h1 : fa.1 < p.length) (h2 : fa.2 < p.length) :
    MeshTri.midpoint2 (MeshTri.translate v p) fa =
      ((MeshTri.midpoint2 p fa).1 + v.1, (MeshTri.midpoint2 p fa).2 + v.2) := by
  rw [MeshTri.midpoint2, MeshTri.midpoint2, getD_translate2 v p h1,
    getD_translate2 v p h2]
  simp only [Prod.mk.injEq]
  refine ⟨by ring, by ring⟩

theorem midpoint3_translate (v : Pt3) (p : List Pt3) {fa : ℕ × ℕ}
    (h1 : fa.1 < p.length) (h2 : fa.2 < p.length) :
    MeshTet.midpoint3 (MeshTet.translate v p) fa =
      ((MeshTet.midpoint3 p fa).1 + v.1,
       (MeshTet.midpoint3 p fa).2.1 + v.2.1,
       (MeshTet.midpoint3 p fa).2.2 + v.2.2) := by
  rw [MeshTet.midpoint3, MeshTet.midpoint3, getD_translate3 v p h1,
    getD_translate3 v p h2]
  simp only [Prod.mk.injEq]
  refine ⟨by ring, by ring, by ring⟩

theorem refineP2_translate (v : Pt2) (p : List Pt2) (t : List Tri)
    (hr : ∀ e ∈ t, e.1 < p.length ∧ e.2.1 < p.length ∧ e.2.2 < p.length) :
    MeshTri.refineP (MeshTri.translate v p) t =
      MeshTri.translate v (MeshTri.refineP p t) := by
  rw [MeshTri.refineP, MeshTri.refineP]
  simp only [MeshTri.translate, List.map_append, List.map_map]
  congr 1
  apply List.map_congr_left
  intro fa hfa
  have hb := facets_vert_lt t hr hfa
  have := midpoint2_translate v p hb.1 hb.2
  rw [MeshTri.translate] at this
  exact this

theorem refineT2_translate (v : Pt2) (p : List Pt2) (t : List Tri) :
    MeshTri.refineT (MeshTri.translate v p) t = MeshTri.refineT p t := by
  simp only [MeshTri.refineT, translate2_length]

theorem refineP3_translate (v : Pt3) (p : List Pt3) (t : List Tet)
    (hr : ∀ e ∈ t, e.1 < p.length ∧ e.2.1 < p.length ∧
      e.2.2.1 < p.length ∧ e.2.2.2 < p.length) :
    MeshTet.refineP (MeshTet.translate v p) t =
      MeshTet.translate v (MeshTet.refineP p t) := by
  rw [MeshTet.refineP, MeshTet.refineP]
  simp only [MeshTet.translate, List.map_append, List.map_map]
  congr 1
  apply List.map_congr_left
  intro fa hfa
  have hb := edges_vert_lt t hr hfa
  have := midpoint3_translate v p hb.1 hb.2
  rw [MeshTet.translate] at this
  exact this

theorem slotEdge_mem_edges (t : List Tet) {s i : ℕ} (hs : s < 6)
    (hi : i < t.length) :
    MeshTet.slotEdge s (t.getD i (0, 0, 0, 0)) ∈ MeshTet.edges t := by
  rw [MeshTet.edges, mem_uniqueSorted]
  have hmem : t.getD i (0, 0, 0, 0) ∈ t := mem_of_getD hi
  simp only [MeshTet.edgesAll, List.mem_append, List.mem_map]
  interval_cases s
  · exact Or.inl (Or.inl (Or.inl (Or.inl (Or.inl ⟨_, hmem, rfl⟩))))
  · exact Or.inl (Or.inl (Or.inl (Or.inl (Or.inr ⟨_, hmem, rfl⟩))))
  · exact Or.inl (Or.inl (Or.inl (Or.inr ⟨_, hmem, rfl⟩)))
  · exact Or.inl (Or.inl (Or.inr ⟨_, hmem, rfl⟩))
  · exact Or.inl (Or.inr ⟨_, hmem, rfl⟩)
  · exact Or.inr ⟨_, hmem, rfl⟩

theorem refineP3_length (p : List Pt3) (t : List Tet) :
    (MeshTet.refineP p t).length = p.length + (MeshTet.edges t).length := by
  simp [MeshTet.refineP]

theorem t2es_lt (p : List Pt3) (t : List Tet) {s i : ℕ} (hs : s < 6)
    (hi : i < t.length) :
    MeshTet.t2es p t s i < (MeshTet.refineP p t).length := by
  rw [refineP3_length, MeshTet.t2es, MeshTet.t2e]
  have := firstIdx_lt (slotEdge_mem_edges t hs hi)
  omega

theorem t2es_translate (v : Pt3) (p : List Pt3) (t : List Tet) (s i : ℕ) :
    MeshTet.t2es (MeshTet.translate v p) t s i = MeshTet.t2es p t s i := by
  simp [MeshTet.t2es, MeshTet.translate]

theorem nget_translate (v : Pt3) (p : List Pt3) (t : List Tet)
    (hr : ∀ e ∈ t, e.1 < p.length ∧ e.2.1 < p.length ∧
      e.2.2.1 < p.length ∧ e.2.2.2 < p.length) {k : ℕ}
    (hk : k < (MeshTet.refineP p t).length) :
    MeshTet.nget (MeshTet.refineP (MeshTet.translate v p) t) k =
      ((MeshTet.nget (MeshTet.refineP p t) k).1 + v.1,
       (MeshTet.nget (MeshTet.refineP p t) k).2.1 + v.2.1,
       (MeshTet.nget (MeshTet.refineP p t) k).2.2 + v.2.2) := by
  rw [MeshTet.nget, MeshTet.nget, refineP3_translate v p t hr,
    MeshTet.translate, getD_map_of_lt _ _ hk (0, 0, 0)]

theorem dOf_translate (v : Pt3) (p : List Pt3) (t : List Tet)
    (hr : ∀ e ∈ t, e.1 < p.length ∧ e.2.1 < p.length ∧
      e.2.2.1 < p.length ∧ e.2.2.2 < p.length) {sa sb i : ℕ}
    (hsa : sa < 6) (hsb : sb < 6) (hi : i < t.length) :
    MeshTet.dOf (MeshTet.translate v p) t sa sb i = MeshTet.dOf p t sa sb i := by
  rw [MeshTet.dOf, MeshTet.dOf, t2es_translate, t2es_translate,
    nget_translate v p t hr (t2es_lt p t hsa hi),
    nget_translate v p t hr (t2es_lt p t hsb hi)]
  ring

theorem c1_translate (v : Pt3) (p : List Pt3) (t : List Tet)
    (hr : ∀ e ∈ t, e.1 < p.length ∧ e.2.1 < p.length ∧
      e.2.2.1 < p.length ∧ e.2.2.2 < p.length) {i : ℕ} (hi : i < t.length) :
    MeshTet.c1 (MeshTet.translate v p) t i ↔ MeshTet.c1 p t i := by
  rw [MeshTet.c1, MeshTet.c1, MeshTet.d1, MeshTet.d1, MeshTet.d2, MeshTet.d2,
    MeshTet.d3, MeshTet.d3, dOf_translate v p t hr (by omega) (by omega) hi,
    dOf_translate v p t hr (by omega) (by omega) hi,
    dOf_translate v p t hr (by omega) (by omega) hi]

theorem c2_translate (v : Pt3) (p : List Pt3) (t : List Tet)
    (hr : ∀ e ∈ t, e.1 < p.length ∧ e.2.1 < p.length ∧
      e.2.2.1 < p.length ∧ e.2.2.2 < p.length) {i : ℕ} (hi : i < t.length) :
    MeshTet.c2 (MeshTet.translate v p) t i ↔ MeshTet.c2 p t i := by
  rw [MeshTet.c2, MeshTet.c2, MeshTet.d1, MeshTet.d1, MeshTet.d2, MeshTet.d2,
    MeshTet.d3, MeshTet.d3, dOf_translate v p t hr (by omega) (by omega) hi,
    dOf_translate v p t hr (by omega) (by omega) hi,
    dOf_translate v p t hr (by omega) (by omega) hi]

theorem c3_translate (v : Pt3) (p : List Pt3) (t : List Tet)
    (hr : ∀ e ∈ t, e.1 < p.length ∧ e.2.1 < p.length ∧
      e.2.2.1 < p.length ∧ e.2.2.2 < p.length) {i : ℕ} (hi : i < t.length) :
    MeshTet.c3 (MeshTet.translate v p) t i ↔ MeshTet.c3 p t i := by
  rw [MeshTet.c3, MeshTet.c3, MeshTet.d1, MeshTet.d1, MeshTet.d2, MeshTet.d2,
    MeshTet.d3, MeshTet.d3, dOf_translate v p t hr (by omega) (by omega) hi,
    dOf_translate v p t hr (by omega) (by omega) hi,
    dOf_translate v p t hr (by omega) (by omega) hi]

theorem refineT3_translate (v : Pt3) (p : List Pt3) (t : List Tet)
    (hr : ∀ e ∈ t, e.1 < p.length ∧ e.2.1 < p.length ∧
      e.2.2.1 < p.length ∧ e.2.2.2 < p.length) :
    MeshTet.refineT (MeshTet.translate v p) t = MeshTet.refineT p t := by
  have hf1 : (List.range t.length).filter
      (fun i => decide (MeshTet.c1 (MeshTet.translate v p) t i)) =
      (List.range t.length).filter (fun i => decide (MeshTet.c1 p t i)) :=
    List.filter_congr (fun i hi => decide_eq_decide.mpr
      (c1_translate v p t hr (List.mem_range.mp hi)))
  have hf2 : (List.range t.length).filter
      (fun i => decide (MeshTet.c2 (MeshTet.translate v p) t i)) =
      (List.range t.length).filter (fun i => decide (MeshTet.c2 p t i)) :=
    List.filter_congr (fun i hi => decide_eq_decide.mpr
      (c2_translate v p t hr (List.mem_range.mp hi)))
  have hf3 : (List.range t.length).filter
      (fun i => decide (MeshTet.c3 (MeshTet.translate v p) t i)) =
      (List.range t.length).filter (fun i => decide (MeshTet.c3 p t i)) :=
    List.filter_congr (fun i hi => decide_eq_decide.mpr
      (c3_translate v p t hr (List.mem_range.mp hi)))
  simp only [MeshTet.refineT, translate3_length, t2es_translate, hf1, hf2, hf3]

/-- Claim C9: translating a mesh and then performing one refinement step
yields the same vertex array as refining and then translating, and the
same connectivity, for both the triangular and the tetrahedral
refinement (the tetrahedral diagonal choice is translation invariant
because it compares coordinate differences).  `t` is the stored
connectivity and the hypotheses say its entries index into `p`. -/
theorem C9_translate_refine (v2 : Pt2) (p2 : List Pt2) (t2 : List Tri)
    (hr2 : ∀ e ∈ t2, e.1 < p2.length ∧ e.2.1 < p2.length ∧ e.2.2 < p2.length)
    (v3 : Pt3) (p3 : List Pt3) (t3 : List Tet)
    (hr3 : ∀ e ∈ t3, e.1 < p3.length ∧ e.2.1 < p3.length ∧
      e.2.2.1 < p3.length ∧ e.2.2.2 < p3.length) :
    MeshTri.refineFull (MeshTri.translate v2 p2) t2 =
      (MeshTri.translate v2 (MeshTri.refineFull p2 t2).1,
       (MeshTri.refineFull p2 t2).2) ∧
    MeshTet.refineFull (MeshTet.translate v3 p3) t3 =
      (MeshTet.translate v3 (MeshTet.refineFull p3 t3).1,
       (MeshTet.refineFull p3 t3).2) := by
  constructor
  · rw [MeshTri.refineFull, MeshTri.refineFull,
      refineP2_translate v2 p2 t2 hr2, refineT2_translate v2 p2 t2]
  · rw [MeshTet.refineFull, MeshTet.refineFull,
      refineP3_translate v3 p3 t3 hr3, refineT3_translate v3 p3 t3 hr3]

/-- Claim C9, witness: the default square mesh and the reference
tetrahedron, translated by concrete vectors. -/
theorem C9_witness :
    MeshTri.refineFull (MeshTri.translate (1, 2) MeshTri.pDef)
        (MeshTri.buildT MeshTri.tDef) =
      (MeshTri.translate (1, 2)
        (MeshTri.refineFull MeshTri.pDef (MeshTri.buildT MeshTri.tDef)).1,
       (MeshTri.refineFull MeshTri.pDef (MeshTri.buildT MeshTri.tDef)).2) ∧
    MeshTet.refineFull (MeshTet.translate (1, 2, 3) MeshTet.pRef)
        MeshTet.tRef =
      (MeshTet.translate (1, 2, 3)
        (MeshTet.refineFull MeshTet.pRef MeshTet.tRef).1,
       (MeshTet.refineFull MeshTet.pRef MeshTet.tRef).2) :=
  C9_translate_refine (1, 2) MeshTri.pDef (MeshTri.buildT MeshTri.tDef)
    (by decide) (1, 2, 3) MeshTet.pRef MeshTet.tRef (by decide)

end Spfem

